import Mathlib

/-!
# Todo list (`script.js`): a shallow embedding and its verified properties

The script keeps a master list `tasks` and a `currentFilter`, mutates them in
event handlers and re-renders the whole view after every mutation.  Here the
closure variables and the DOM nodes the handlers read or write become the
fields of `AppState`; every handler becomes a function `AppState → AppState`.

Conventions of the embedding:

* JavaScript strings are Lean `String`s (sequences of Unicode scalar values);
  strings holding lone surrogates are outside the model.
* Task ids are integral numbers (`Date.now()`), held as `Int`; `Int` and the
  JavaScript numbers agree on the safe integers, which hold every time value.
* The wall clock and the host time zone are read from an explicit `Env`; one
  render reads the clock once.
* `JSON.stringify` and `JSON.parse` follow the JSON grammar of ECMA-404; the
  parser recurses on a depth counter that the length of the text bounds.
* `loadData` can throw, so it returns a `LoadResult`.

Not modelled: `handleListDoubleClick` (it only swaps DOM nodes and then calls
`updateTaskText`), `formatDate` (display only) and the HTML text of a list item,
of which `Li` keeps the interpolated values.
-/

namespace TodoList

/-! ## Data model -/

/-- One task record, with the five properties `addTask` gives `newTask`. -/
structure Task where
  id : Int
  text : String
  priority : String
  dueDate : String
  completed : Bool
  deriving DecidableEq, Repr

/-- The `li` element `renderTasks` builds for one visible task: `dataset.id`, the
classes `checked` and `overdue`, and the interpolated text, priority and due date
(the due-date span is present exactly when `dueDate` is a non-empty string). -/
structure Li where
  dataId : Int
  checked : Bool
  overdue : Bool
  text : String
  priority : String
  dueDate : String
  deriving DecidableEq, Repr

/-- Content of `listContainer` after a render: the placeholder paragraph or the
list items in order. -/
inductive ListView where
  | noTasks
  | items (lis : List Li)
  deriving DecidableEq, Repr

/-- Closure state of the script together with the DOM and storage cells it uses. -/
structure AppState where
  /-- `let tasks = []` -/
  tasks : List Task := []
  /-- `let currentFilter = 'all'` -/
  currentFilter : String := "all"
  /-- `inputBox.value` -/
  inputBox : String := ""
  /-- `prioritySelect.value` -/
  prioritySelect : String := "low"
  /-- `dueDateInput.value` -/
  dueDateInput : String := ""
  /-- children of `listContainer` -/
  listContainer : ListView := ListView.noTasks
  /-- `taskCounter.textContent` -/
  taskCounter : String := ""
  /-- id of the filter span carrying the class `active`, when the script set one -/
  activeSpan : Option String := none
  /-- `localStorage` entry `todoTasks` (`none`: the key is absent) -/
  storage : Option String := none
  /-- messages passed to `alert`, oldest first -/
  alerts : List String := []

/-- Host environment read by the script: the clock, the local time zone
adjustment and the host's parsing of date strings that are not in the
ECMAScript date-only format. -/
structure Env where
  /-- milliseconds since the epoch returned by `Date.now()` and `new Date()` -/
  now : Int
  /-- `LocalTZA(t, isUTC)` of ECMAScript, in milliseconds -/
  localTZA : Int → Bool → Int
  /-- result of `Date.parse` on a string outside the date-only format
  (`none` is `NaN`) -/
  hostParse : String → Option Int

/-! ## `String.prototype.trim` -/

/-- ECMAScript `WhiteSpace` and `LineTerminator` code points, the ones `trim`
strips. -/
def isJsWhiteSpace (c : Char) : Bool :=
  let n := c.toNat
  n == 0x09 || n == 0x0A || n == 0x0B || n == 0x0C || n == 0x0D || n == 0x20 ||
  n == 0xA0 || n == 0x1680 || (0x2000 ≤ n && n ≤ 0x200A) || n == 0x2028 ||
  n == 0x2029 || n == 0x202F || n == 0x205F || n == 0x3000 || n == 0xFEFF

/-- `String.prototype.trim` on the character list. -/
def trimChars (cs : List Char) : List Char :=
  ((cs.dropWhile isJsWhiteSpace).reverse.dropWhile isJsWhiteSpace).reverse

/-- `s.trim()` -/
def jsTrim (s : String) : String := ⟨trimChars s.data⟩

/-! ## `Date`: the part `renderTasks` uses -/

/-- Milliseconds in a day (`msPerDay`). -/
def msPerDay : Int := 86400000

/-- `TimeClip`: time values beyond 8.64e15 ms from the epoch are `NaN`. -/
def timeClip (t : Int) : Option Int :=
  if t.natAbs ≤ 8640000000000000 then some t else none

/-- `DayFromYear(y)` of ECMAScript: day number of 1 January of year `y`. -/
def dayFromYear (y : Int) : Int :=
  365 * (y - 1970) + (y - 1969) / 4 - (y - 1901) / 100 + (y - 1601) / 400

/-- Leap-year test behind `DaysInYear`. -/
def isLeapYear (y : Int) : Bool :=
  (y % 4 == 0 && y % 100 != 0) || y % 400 == 0

/-- Number of days in month `m` (1 to 12) of year `y`; 0 for any other `m`. -/
def daysInMonth (y : Int) (m : Nat) : Nat :=
  match m with
  | 1 => 31 | 2 => if isLeapYear y then 29 else 28 | 3 => 31 | 4 => 30
  | 5 => 31 | 6 => 30 | 7 => 31 | 8 => 31 | 9 => 30 | 10 => 31 | 11 => 30
  | 12 => 31 | _ => 0

/-- Days of year `y` that precede month `m` (1 to 12). -/
def daysBeforeMonth (y : Int) (m : Nat) : Nat :=
  ((List.range m).map fun k => daysInMonth y k).sum

/-- `MakeDay(y, m - 1, d)` for a calendar date: its day number since the epoch. -/
def makeDay (y : Int) (m d : Nat) : Int :=
  dayFromYear y + daysBeforeMonth y m + d - 1

/-- Value of a decimal digit character. -/
def digitVal (c : Char) : Nat := c.toNat - 48

/-- Value of a string of decimal digits, most significant first. -/
def digitsVal (cs : List Char) : Nat :=
  cs.foldl (fun a c => 10 * a + digitVal c) 0

/-- The ECMAScript date-only form `YYYY-MM-DD` naming a real calendar day:
year, month and day when `cs` is such a string. -/
def parseDateOnly (cs : List Char) : Option (Int × Nat × Nat) :=
  match cs with
  | [y1, y2, y3, y4, s1, m1, m2, s2, d1, d2] =>
    let y : Int := digitsVal [y1, y2, y3, y4]
    let m := digitsVal [m1, m2]
    let d := digitsVal [d1, d2]
    if [y1, y2, y3, y4, m1, m2, d1, d2].all Char.isDigit && s1 == '-' && s2 == '-'
        && 1 ≤ m && m ≤ 12 && 1 ≤ d && d ≤ daysInMonth y m then
      some (y, m, d)
    else none
  | _ => none

/-- Time value of `new Date(s)` for a string `s`: a date-only string is midnight
UTC of that day; any other string is parsed as the host does. -/
def dateFromString (env : Env) (s : String) : Option Int :=
  match parseDateOnly s.data with
  | some (y, m, d) => timeClip (makeDay y m d * msPerDay)
  | none => (env.hostParse s).bind timeClip

/-- `Date.prototype.setHours(0, 0, 0, 0)` applied to a date of time value `t`,
returning the new time value: midnight, in local time, of the local day of `t`. -/
def setHoursZero (env : Env) (t : Option Int) : Option Int :=
  t.bind fun t =>
    let localT := t + env.localTZA t true
    let date := localT / msPerDay * msPerDay
    timeClip (date - env.localTZA date false)

/-- The relational `a < b` on numbers, false when either side is `NaN`. -/
def numLt (a b : Option Int) : Bool :=
  match a, b with
  | some x, some y => x < y
  | _, _ => false

/-- The overdue test of `renderTasks` (lines 41 to 47): whether the `li` of `task`
gets the class `overdue`. -/
def isOverdue (env : Env) (task : Task) : Bool :=
  if task.dueDate ≠ "" && !task.completed then
    let today := setHoursZero env (some env.now)
    let dueDate := setHoursZero env (dateFromString env task.dueDate)
    numLt dueDate today
  else false

/-! ## `JSON.stringify` on the task list -/

/-- Lower-case hexadecimal digit of `n < 16`. -/
def hexDigit (n : Nat) : Char :=
  if n < 10 then Char.ofNat (48 + n) else Char.ofNat (87 + n)

/-- `UnicodeEscape`: `\u` and four hexadecimal digits. -/
def unicodeEscape (n : Nat) : List Char :=
  ['\\', 'u', hexDigit (n / 4096 % 16), hexDigit (n / 256 % 16),
    hexDigit (n / 16 % 16), hexDigit (n % 16)]

/-- How `QuoteJSONString` writes one character. -/
def quoteChar (c : Char) : List Char :=
  if c = '\x08' then ['\\', 'b']
  else if c = '\t' then ['\\', 't']
  else if c = '\n' then ['\\', 'n']
  else if c = '\x0c' then ['\\', 'f']
  else if c = '\r' then ['\\', 'r']
  else if c = '"' then ['\\', '"']
  else if c = '\\' then ['\\', '\\']
  else if c.toNat < 0x20 then unicodeEscape c.toNat
  else [c]

/-- `QuoteJSONString`. -/
def quoteJSONString (s : String) : List Char :=
  '"' :: (s.data.flatMap quoteChar ++ ['"'])

/-- `Number::toString` on an integral number. -/
def numberToString (n : Int) : String :=
  if n < 0 then "-" ++ toString n.natAbs else toString n.toNat

/-- Serialization of one task object, its properties in creation order. -/
def stringifyTask (t : Task) : List Char :=
  "\x7b\"id\":".data ++ (numberToString t.id).data ++
  ",\"text\":".data ++ quoteJSONString t.text ++
  ",\"priority\":".data ++ quoteJSONString t.priority ++
  ",\"dueDate\":".data ++ quoteJSONString t.dueDate ++
  ",\"completed\":".data ++ (if t.completed then "true" else "false").data ++ ['}']

/-- Serialization of the elements of an array, separated by commas. -/
def stringifyElements : List Task → List Char
  | [] => []
  | [t] => stringifyTask t
  | t :: ts => stringifyTask t ++ ',' :: stringifyElements ts

/-- `JSON.stringify(tasks)` on the task list. -/
def JSON.stringify (tasks : List Task) : String :=
  ⟨'[' :: (stringifyElements tasks ++ [']'])⟩

/-! ## Rendering -/

/-- The `filter` callback of `renderTasks` (lines 24 to 28). -/
def filterPred (currentFilter : String) (task : Task) : Bool :=
  if currentFilter = "active" then !task.completed
  else if currentFilter = "completed" then task.completed
  else true

/-- `filteredTasks` of `renderTasks`: the visible subset. -/
def filteredTasks (s : AppState) : List Task :=
  s.tasks.filter (filterPred s.currentFilter)

/-- The list item built for one visible task. -/
def renderLi (env : Env) (task : Task) : Li :=
  { dataId := task.id, checked := task.completed, overdue := isOverdue env task,
    text := task.text, priority := task.priority, dueDate := task.dueDate }

/-- The text `updateTaskCount` computes from the number of active tasks. -/
def counterText (activeTasks : Nat) : String :=
  toString activeTasks ++ " task" ++ (if activeTasks ≠ 1 then "s" else "") ++ " left"

/-- `updateTaskCount()` -/
def updateTaskCount (s : AppState) : AppState :=
  let activeTasks := (s.tasks.filter fun task => !task.completed).length
  { s with taskCounter := counterText activeTasks }

/-- `saveData()` -/
def saveData (s : AppState) : AppState :=
  { s with storage := some (JSON.stringify s.tasks) }

/-- `renderTasks()` -/
def renderTasks (env : Env) (s : AppState) : AppState :=
  let visible := filteredTasks s
  let view :=
    if visible.length = 0 then ListView.noTasks
    else ListView.items (visible.map (renderLi env))
  saveData (updateTaskCount { s with listContainer := view })

/-! ## Event handlers -/

/-- First task satisfying `p` replaced by its image under `f`: the effect of
`tasks.find(p)` followed by an in-place assignment to the object found. No task
changes when none satisfies `p`. -/
def updateFound (p : Task → Bool) (f : Task → Task) : List Task → List Task
  | [] => []
  | t :: ts => if p t then f t :: ts else t :: updateFound p f ts

/-- `addTask()` -/
def addTask (env : Env) (s : AppState) : AppState :=
  let taskText := jsTrim s.inputBox
  if taskText = "" then
    { s with alerts := s.alerts ++ ["Please enter a task!"] }
  else
    let newTask : Task :=
      { id := env.now, text := taskText, priority := s.prioritySelect,
        dueDate := s.dueDateInput, completed := false }
    renderTasks env
      { s with tasks := s.tasks ++ [newTask], inputBox := "", dueDateInput := "",
               prioritySelect := "low" }

/-- What `handleListClick` reads from a click event: `Number(li.dataset.id)` of
the enclosing `li` (`none` when the target is outside every `li`) and whether the
target carries the class `delete-btn`. -/
structure ListClick where
  li : Option Int
  deleteBtn : Bool

/-- `handleListClick(e)` -/
def handleListClick (env : Env) (e : ListClick) (s : AppState) : AppState :=
  match e.li with
  | none => s
  | some taskId =>
    if e.deleteBtn then
      renderTasks env { s with tasks := s.tasks.filter fun task => task.id ≠ taskId }
    else
      renderTasks env
        { s with tasks := updateFound (fun task => task.id = taskId)
                    (fun task => { task with completed := !task.completed }) s.tasks }

/-- `updateTaskText(id, newText)` -/
def updateTaskText (env : Env) (id : Int) (newText : String) (s : AppState) : AppState :=
  let tasks :=
    if jsTrim newText ≠ "" then
      updateFound (fun task => task.id = id)
        (fun task => { task with text := jsTrim newText }) s.tasks
    else s.tasks
  renderTasks env { s with tasks := tasks }

/-- First occurrence of `pat` in `cs` replaced by `rep`
(`String.prototype.replace` with a string pattern). -/
def replaceFirst (pat rep : List Char) : List Char → List Char
  | [] => if pat = [] then rep else []
  | c :: cs =>
    if pat.isPrefixOf (c :: cs) then rep ++ (c :: cs).drop pat.length
    else c :: replaceFirst pat rep cs

/-- What `handleFilterClick` reads from a click event: `tagName` and `id` of the
target. -/
structure FilterClick where
  tagName : String
  id : String

/-- `handleFilterClick(e)` -/
def handleFilterClick (env : Env) (e : FilterClick) (s : AppState) : AppState :=
  if e.tagName = "SPAN" then
    renderTasks env
      { s with currentFilter := ⟨replaceFirst "filter-".data [] e.id.data⟩,
               activeSpan := some e.id }
  else s

/-! ## `JSON.parse` -/

/-- Values `JSON.parse` returns. A number keeps the exact decimal value
`mant * 10 ^ exp` of its literal. -/
inductive Json where
  | null
  | bool (b : Bool)
  | num (mant : Int) (exp : Int)
  | str (s : String)
  | arr (elems : List Json)
  | obj (members : List (String × Json))

/-- Ways the parser model stops without a value: `syntaxError` is the
`SyntaxError` that `JSON.parse` throws; `loneSurrogate` marks a `\u` escape of an
unpaired surrogate, which `JSON.parse` accepts and a `String` cannot hold; `depth`
marks an exhausted depth bound, which `JSON.parse` never meets
(`jsonParse_ne_depth`). -/
inductive ParseError where
  | syntaxError
  | loneSurrogate
  | depth
  deriving DecidableEq, Repr

/-- JSON insignificant white space. -/
def isJsonWs (c : Char) : Bool :=
  c == ' ' || c == '\t' || c == '\n' || c == '\r'

/-- Input with leading JSON white space removed. -/
def skipWs (cs : List Char) : List Char := cs.dropWhile isJsonWs

/-- Value of a hexadecimal digit, either case. -/
def hexVal (c : Char) : Option Nat :=
  if '0' ≤ c ∧ c ≤ '9' then some (c.toNat - 48)
  else if 'a' ≤ c ∧ c ≤ 'f' then some (c.toNat - 87)
  else if 'A' ≤ c ∧ c ≤ 'F' then some (c.toNat - 55)
  else none

/-- Value of the four hexadecimal digits of a `\u` escape. -/
def hex4 (a b c d : Char) : Option Nat :=
  match hexVal a, hexVal b, hexVal c, hexVal d with
  | some x, some y, some z, some w => some (4096 * x + 256 * y + 16 * z + w)
  | _, _, _, _ => none

/-- Low surrogate named by a `\u` escape at the head of the input, with the input
after it. -/
def lowSurrogate (cs : List Char) : Option (Nat × List Char) :=
  match cs with
  | b :: u :: h1 :: h2 :: h3 :: h4 :: rest =>
    if b = '\\' ∧ u = 'u' then
      match hex4 h1 h2 h3 h4 with
      | some lo => if 0xDC00 ≤ lo ∧ lo ≤ 0xDFFF then some (lo, rest) else none
      | none => none
    else none
  | _ => none

/-- Character named by a two-character escape `\e`. -/
def simpleEscape (e : Char) : Option Char :=
  if e = '"' then some '"'
  else if e = '\\' then some '\\'
  else if e = '/' then some '/'
  else if e = 'b' then some '\x08'
  else if e = 'f' then some '\x0c'
  else if e = 'n' then some '\n'
  else if e = 'r' then some '\r'
  else if e = 't' then some '\t'
  else none

/-- What the scanner finds at the head of a string body: the closing quote, one
character of the string, or an error. Each case carries the input after it. -/
inductive StrStep where
  | close (rest : List Char)
  | char (c : Char) (rest : List Char)
  | fail (e : ParseError)

/-- Scanner step after `\u`: four hexadecimal digits; a high surrogate must be
followed by the escape of a low surrogate and the two make one character. -/
def unicodeStep (cs : List Char) : StrStep :=
  match cs with
  | h1 :: h2 :: h3 :: h4 :: r2 =>
    match hex4 h1 h2 h3 h4 with
    | none => .fail .syntaxError
    | some u =>
      if 0xD800 ≤ u ∧ u ≤ 0xDBFF then
        match lowSurrogate r2 with
        | some (lo, r3) =>
          .char (Char.ofNat (0x10000 + (u - 0xD800) * 0x400 + (lo - 0xDC00))) r3
        | none => .fail .loneSurrogate
      else if 0xDC00 ≤ u ∧ u ≤ 0xDFFF then .fail .loneSurrogate
      else .char (Char.ofNat u) r2
  | _ => .fail .syntaxError

/-- One scanner step inside a JSON string: the closing quote, an escape, or a
literal character, which must not be a control character. -/
def stringStep (cs : List Char) : StrStep :=
  match cs with
  | [] => .fail .syntaxError
  | c :: r =>
    if c = '"' then .close r
    else if c = '\\' then
      match r with
      | [] => .fail .syntaxError
      | e :: r1 =>
        if e = 'u' then unicodeStep r1
        else
          match simpleEscape e with
          | none => .fail .syntaxError
          | some x => .char x r1
    else if c.toNat < 0x20 then .fail .syntaxError
    else .char c r

/-- Characters of a JSON string whose opening quote is consumed, up to the
closing quote, with the input after it. The first argument bounds the number of
steps; `parseString` supplies one more than the length of the input. -/
def parseStringSteps : Nat → List Char → Except ParseError (List Char × List Char)
  | 0, _ => .error .depth
  | fuel + 1, cs =>
    match stringStep cs with
    | .fail e => .error e
    | .close r => .ok ([], r)
    | .char c r => (parseStringSteps fuel r).map fun p => (c :: p.1, p.2)

/-- A JSON string whose opening quote is consumed: its characters and the input
after the closing quote. -/
def parseString (cs : List Char) : Except ParseError (List Char × List Char) :=
  parseStringSteps (cs.length + 1) cs

/-- Fraction part of a number literal: its digits and the input after them. -/
def parseFrac (cs : List Char) : Except ParseError (List Char × List Char) :=
  match cs with
  | [] => .ok ([], [])
  | c :: r =>
    if c = '.' then
      if r.takeWhile Char.isDigit = [] then .error .syntaxError
      else .ok (r.takeWhile Char.isDigit, r.dropWhile Char.isDigit)
    else .ok ([], c :: r)

/-- Digits of an exponent with the input after them. -/
def parseExpDigits (neg : Bool) (cs : List Char) : Except ParseError (Int × List Char) :=
  if cs.takeWhile Char.isDigit = [] then .error .syntaxError
  else
    let v : Int := digitsVal (cs.takeWhile Char.isDigit)
    .ok (if neg then -v else v, cs.dropWhile Char.isDigit)

/-- Exponent part of a number literal: its value and the input after it. -/
def parseExp (cs : List Char) : Except ParseError (Int × List Char) :=
  match cs with
  | [] => .ok (0, [])
  | c :: r =>
    if c = 'e' ∨ c = 'E' then
      match r with
      | [] => .error .syntaxError
      | sg :: r1 =>
        if sg = '+' then parseExpDigits false r1
        else if sg = '-' then parseExpDigits true r1
        else parseExpDigits false (sg :: r1)
    else .ok (0, c :: r)

/-- Number literal without its sign: integer part (a single `0`, or digits with
a non-zero first one), then the optional fraction and exponent. -/
def parseUnsigned (neg : Bool) (cs : List Char) : Except ParseError (Json × List Char) :=
  match cs with
  | [] => .error .syntaxError
  | c :: r =>
    if !c.isDigit then .error .syntaxError
    else
      let intDigits := if c = '0' then [c] else c :: r.takeWhile Char.isDigit
      let r1 := if c = '0' then r else r.dropWhile Char.isDigit
      match parseFrac r1 with
      | .error e => .error e
      | .ok (fracDigits, r2) =>
        match parseExp r2 with
        | .error e => .error e
        | .ok (ex, r3) =>
          let mant : Int := digitsVal (intDigits ++ fracDigits)
          .ok (Json.num (if neg then -mant else mant) (ex - fracDigits.length), r3)

/-- Number literal at the head of the input. -/
def parseNumber (cs : List Char) : Except ParseError (Json × List Char) :=
  match cs with
  | [] => .error .syntaxError
  | c :: r => if c = '-' then parseUnsigned true r else parseUnsigned false (c :: r)

mutual
/-- A JSON value at the head of the input (no leading white space), with the
input after it. The first argument bounds the recursion depth. -/
def parseValue : Nat → List Char → Except ParseError (Json × List Char)
  | 0, _ => .error .depth
  | fuel + 1, cs =>
    match cs with
    | [] => .error .syntaxError
    | c :: r =>
      if c = '"' then
        (parseString r).map fun p => (Json.str ⟨p.1⟩, p.2)
      else if c = '[' then
        match skipWs r with
        | [] => .error .syntaxError
        | c1 :: r1 =>
          if c1 = ']' then .ok (Json.arr [], r1)
          else (parseElements fuel (c1 :: r1)).map fun p => (Json.arr p.1, p.2)
      else if c = '{' then
        match skipWs r with
        | [] => .error .syntaxError
        | c1 :: r1 =>
          if c1 = '}' then .ok (Json.obj [], r1)
          else (parseMembers fuel (c1 :: r1)).map fun p => (Json.obj p.1, p.2)
      else if c = 't' then
        if "rue".data.isPrefixOf r then .ok (Json.bool true, r.drop 3)
        else .error .syntaxError
      else if c = 'f' then
        if "alse".data.isPrefixOf r then .ok (Json.bool false, r.drop 4)
        else .error .syntaxError
      else if c = 'n' then
        if "ull".data.isPrefixOf r then .ok (Json.null, r.drop 3)
        else .error .syntaxError
      else parseNumber (c :: r)
/-- Elements of a non-empty array after `[` and white space, up to the closing
`]`, with the input after it. -/
def parseElements : Nat → List Char → Except ParseError (List Json × List Char)
  | 0, _ => .error .depth
  | fuel + 1, cs =>
    match parseValue fuel cs with
    | .error e => .error e
    | .ok (v, r) =>
      match skipWs r with
      | [] => .error .syntaxError
      | c :: r1 =>
        if c = ',' then
          (parseElements fuel (skipWs r1)).map fun p => (v :: p.1, p.2)
        else if c = ']' then .ok ([v], r1)
        else .error .syntaxError
/-- Members of a non-empty object after `{` and white space, up to the closing
`}`, with the input after it. -/
def parseMembers : Nat → List Char → Except ParseError (List (String × Json) × List Char)
  | 0, _ => .error .depth
  | fuel + 1, cs =>
    match cs with
    | [] => .error .syntaxError
    | q :: r =>
      if q = '"' then
        match parseString r with
        | .error e => .error e
        | .ok (key, r1) =>
          match skipWs r1 with
          | [] => .error .syntaxError
          | col :: r2 =>
            if col = ':' then
              match parseValue fuel (skipWs r2) with
              | .error e => .error e
              | .ok (v, r3) =>
                match skipWs r3 with
                | [] => .error .syntaxError
                | c :: r4 =>
                  if c = ',' then
                    (parseMembers fuel (skipWs r4)).map fun p => ((⟨key⟩, v) :: p.1, p.2)
                  else if c = '}' then .ok ([(⟨key⟩, v)], r4)
                  else .error .syntaxError
            else .error .syntaxError
      else .error .syntaxError
end

/-- `JSON.parse(text)`: one value between optional white space, nothing after.
Every level of nesting takes two units of depth and at least one character, so
twice the length of the text, and one, is depth enough. -/
def JSON.parse (text : String) : Except ParseError Json :=
  match parseValue (2 * text.data.length + 1) (skipWs text.data) with
  | .error e => .error e
  | .ok (v, r) => if skipWs r = [] then .ok v else .error .syntaxError

/-- Integer denoted by a number `mant * 10 ^ exp`, when it is one. -/
def intOfNum (mant exp : Int) : Option Int :=
  if 0 ≤ exp then some (mant * 10 ^ exp.toNat)
  else if mant % 10 ^ (-exp).toNat = 0 then some (mant / 10 ^ (-exp).toNat)
  else none

/-- The task record a parsed value is, when it is an object with exactly the
properties `id`, `text`, `priority`, `dueDate`, `completed`, in this order, holding
an integer, three strings and a boolean. -/
def asTask : Json → Option Task
  | .obj [(k1, .num m e), (k2, .str t), (k3, .str p), (k4, .str d), (k5, .bool b)] =>
    if k1 = "id" ∧ k2 = "text" ∧ k3 = "priority" ∧ k4 = "dueDate" ∧ k5 = "completed" then
      (intOfNum m e).map fun i =>
        { id := i, text := t, priority := p, dueDate := d, completed := b }
    else none
  | _ => none

/-- The task records a list of parsed values is, when every one is a task record. -/
def asTasks : List Json → Option (List Task)
  | [] => some []
  | j :: js =>
    match asTask j, asTasks js with
    | some t, some ts => some (t :: ts)
    | _, _ => none

/-- Exceptions that leave `loadData`. -/
inductive JsError where
  | syntaxError
  | typeError
  deriving DecidableEq, Repr

/-- Outcome of `loadData()`. -/
inductive LoadResult where
  /-- `loadData` returned, leaving this state -/
  | done (s : AppState)
  /-- an exception left `loadData` before `renderTasks` completed -/
  | threw (e : JsError)
  /-- the stored text parses to an array that is not a list of task records (or
  to a string with a lone surrogate): `tasks` would hold a value that `AppState`
  cannot represent -/
  | unmodelled

/-- `loadData()`: `if (savedTasks)` skips an absent key and the empty string;
`JSON.parse` throws `SyntaxError` on a malformed text; `tasks.filter` in
`renderTasks` throws `TypeError` when the parsed value is not an array. -/
def loadData (env : Env) (s : AppState) : LoadResult :=
  match s.storage with
  | none => .done (renderTasks env s)
  | some savedTasks =>
    if savedTasks = "" then .done (renderTasks env s)
    else
      match JSON.parse savedTasks with
      | .error .syntaxError => .threw .syntaxError
      | .error _ => .unmodelled
      | .ok (.arr elems) =>
        match asTasks elems with
        | some ts => .done (renderTasks env { s with tasks := ts })
        | none => .unmodelled
      | .ok _ => .threw .typeError

/-- State of a freshly loaded page whose storage entry is `stored`, before the
initial `loadData()`: the initial values of the closure variables and form fields. -/
def initialState (stored : Option String) : AppState :=
  { storage := stored }

/-- Task list after `loadData()`, when it returned. -/
def LoadResult.tasks? : LoadResult → Option (List Task)
  | .done s => some s.tasks
  | _ => none

/-- Exception that left `loadData()`, when one did. -/
def LoadResult.error? : LoadResult → Option JsError
  | .threw e => some e
  | _ => none

/-! ## Drivers and worked examples -/

/-- The handler `handleFilterClick` run on a sequence of clicks, oldest first. -/
def clickFilters (env : Env) (history : List FilterClick) (s : AppState) : AppState :=
  history.foldl (fun st e => handleFilterClick env e st) s

/-- Environment of the worked examples: 25 December 2024, 12:00 UTC, in a zone
five hours behind UTC. -/
def exampleEnv : Env :=
  { now := 1735128000000, localTZA := fun _ _ => -18000000, hostParse := fun _ => none }

/-- Two stored tasks used in the worked examples. -/
def exampleTasks : List Task :=
  [ { id := 1735000000001, text := "Buy milk", priority := "low", dueDate := "",
      completed := false },
    { id := 1735000000002, text := "Pay rent", priority := "high",
      dueDate := "2024-12-20", completed := true } ]

/-- State of the worked examples: two tasks and a filled input form. -/
def exampleState : AppState :=
  { tasks := exampleTasks, inputBox := "  Call Ana ", prioritySelect := "medium",
    dueDateInput := "2024-12-31" }

/-- A task due on 25 December 2024, not completed. -/
def dueChristmas : Task :=
  { id := 1735000000003, text := "Wrap gifts", priority := "high", dueDate := "2024-12-25",
    completed := false }

/-! ## Predicates of the parser proofs -/

/-- A parser outcome on an input of length `n` that is not a depth error and, when
it is a value, leaves an input shorter than `n`. -/
def Consumes {α : Type} (res : Except ParseError (α × List Char)) (n : Nat) : Prop :=
  res ≠ .error .depth ∧ ∀ v r, res = .ok (v, r) → r.length < n

/-- A character that ends a number literal: no digit, no `.`, no exponent mark. -/
def endsNumber (x : Char) : Prop :=
  x.isDigit = false ∧ x ≠ '.' ∧ x ≠ 'e' ∧ x ≠ 'E'

/-- The value `JSON.parse` builds from the serialization of a task. -/
def taskJson (t : Task) : Json :=
  .obj [("id", .num t.id 0), ("text", .str t.text), ("priority", .str t.priority),
        ("dueDate", .str t.dueDate), ("completed", .bool t.completed)]

/-! # Theorems -/

/-! ## Basic facts -/

theorem renderTasks_tasks (env : Env) (s : AppState) : (renderTasks env s).tasks = s.tasks := rfl

theorem renderTasks_currentFilter (env : Env) (s : AppState) :
    (renderTasks env s).currentFilter = s.currentFilter := rfl

theorem string_mk_eq_empty (cs : List Char) : (String.mk cs = "") ↔ cs = [] := by
  constructor
  · intro h
    have := congrArg String.data h
    simpa using this
  · intro h
    subst h
    rfl

theorem trimChars_eq_nil (cs : List Char) :
    trimChars cs = [] ↔ ∀ c ∈ cs, isJsWhiteSpace c = true := by
  unfold trimChars
  rw [List.reverse_eq_nil_iff]
  constructor
  · intro h
    rw [List.dropWhile_eq_nil_iff] at h
    by_cases hd : cs.dropWhile isJsWhiteSpace = []
    · exact List.dropWhile_eq_nil_iff.mp hd
    · exfalso
      obtain ⟨x, xs, hx⟩ := List.exists_cons_of_ne_nil hd
      have hhead : isJsWhiteSpace x = true := h x (by simp [hx])
      have hne := List.head_dropWhile_not isJsWhiteSpace cs hd
      simp [hx] at hne
      simp [hne] at hhead
  · intro h
    have : cs.dropWhile isJsWhiteSpace = [] := List.dropWhile_eq_nil_iff.mpr h
    simp [this]

theorem jsTrim_eq_empty (s : String) :
    jsTrim s = "" ↔ ∀ c ∈ s.data, isJsWhiteSpace c = true := by
  unfold jsTrim
  rw [string_mk_eq_empty, trimChars_eq_nil]

theorem updateFound_length (p : Task → Bool) (f : Task → Task) (ts : List Task) :
    (updateFound p f ts).length = ts.length := by
  induction ts with
  | nil => rfl
  | cons t ts ih =>
    unfold updateFound
    split <;> simp [ih]

theorem updateFound_of_forall_not (p : Task → Bool) (f : Task → Task) (ts : List Task)
    (h : ∀ t ∈ ts, p t = false) : updateFound p f ts = ts := by
  induction ts with
  | nil => rfl
  | cons t ts ih =>
    have ht : p t = false := h t (by simp)
    have hts : ∀ x ∈ ts, p x = false := fun x hx => h x (by simp [hx])
    simp [updateFound, ht, ih hts]

theorem updateFound_split (p : Task → Bool) (f : Task → Task) (pre post : List Task)
    (t : Task) (hpre : ∀ x ∈ pre, p x = false) (ht : p t = true) :
    updateFound p f (pre ++ t :: post) = pre ++ f t :: post := by
  induction pre with
  | nil => simp [updateFound, ht]
  | cons x xs ih =>
    have hx : p x = false := hpre x (by simp)
    have hxs : ∀ y ∈ xs, p y = false := fun y hy => hpre y (by simp [hy])
    simp [updateFound, hx, ih hxs]

theorem updateFound_getElem?_of_not (p : Task → Bool) (f : Task → Task) (ts : List Task)
    (i : Nat) (t : Task) (hi : ts[i]? = some t) (hp : p t = false) :
    (updateFound p f ts)[i]? = some t := by
  induction ts generalizing i with
  | nil => simp at hi
  | cons x xs ih =>
    unfold updateFound
    cases i with
    | zero =>
      simp at hi
      subst hi
      simp [hp]
    | succ j =>
      simp at hi
      split
      · simpa using hi
      · simpa using ih j hi

theorem updateFound_map_eq (p : Task → Bool) (f : Task → Task) (g : Task → α)
    (hg : ∀ t, g (f t) = g t) (ts : List Task) :
    (updateFound p f ts).map g = ts.map g := by
  induction ts with
  | nil => rfl
  | cons t ts ih =>
    unfold updateFound
    split <;> simp [hg, ih]

theorem updateFound_involutive (p : Task → Bool) (f : Task → Task)
    (hp : ∀ t, p (f t) = p t) (hf : ∀ t, f (f t) = t) (ts : List Task) :
    updateFound p f (updateFound p f ts) = ts := by
  induction ts with
  | nil => rfl
  | cons t ts ih =>
    by_cases h : p t = true
    · have h2 : p (f t) = true := by rw [hp]; exact h
      simp [updateFound, h, h2, hf]
    · have h1 : p t = false := by simpa using h
      simp [updateFound, h1, ih]

theorem handleFilterClick_tasks (env : Env) (e : FilterClick) (s : AppState) :
    (handleFilterClick env e s).tasks = s.tasks := by
  unfold handleFilterClick
  split <;> rfl

theorem clickFilters_tasks (env : Env) (history : List FilterClick) (s : AppState) :
    (clickFilters env history s).tasks = s.tasks := by
  unfold clickFilters
  induction history generalizing s with
  | nil => rfl
  | cons e es ih => simp only [List.foldl_cons, ih, handleFilterClick_tasks]

theorem filteredTasks_after_click (env : Env) (id name : String) (s : AppState)
    (h : String.mk (replaceFirst "filter-".data [] id.data) = name) :
    filteredTasks (handleFilterClick env ⟨"SPAN", id⟩ s) = s.tasks.filter (filterPred name) := by
  simp [handleFilterClick, filteredTasks, renderTasks, saveData, updateTaskCount, h]

theorem counterText_eq (n : Nat) :
    counterText n = if n = 1 then "1 task left" else toString n ++ " tasks left" := by
  unfold counterText
  by_cases h : n = 1
  · subst h
    decide
  · simp only [h, ne_eq, not_false_eq_true, if_true, if_false]
    rw [String.append_assoc, String.append_assoc]
    rfl

/-! ## Adding a task -/

/-- C1: when the trimmed content of the input box is non-empty, `addTask` leaves the
old collection in place and appends exactly one task at its end: the new task has
`completed = false`, the trimmed input as text, the priority and due date of the
form and `Date.now()` as id; the size grows by one, every earlier position holds
the task it held, and no alert is raised. -/
theorem addTask_appends_one_task (env : Env) (s : AppState) (h : jsTrim s.inputBox ≠ "") :
    (addTask env s).tasks =
        s.tasks ++ [{ id := env.now, text := jsTrim s.inputBox, priority := s.prioritySelect,
                      dueDate := s.dueDateInput, completed := false }] ∧
      (addTask env s).tasks.length = s.tasks.length + 1 ∧
      (∀ (i : Nat) (t : Task), s.tasks[i]? = some t → (addTask env s).tasks[i]? = some t) ∧
      (addTask env s).alerts = s.alerts := by
  have htasks : (addTask env s).tasks =
      s.tasks ++ [{ id := env.now, text := jsTrim s.inputBox, priority := s.prioritySelect,
                    dueDate := s.dueDateInput, completed := false }] := by
    simp [addTask, h, renderTasks_tasks]
  refine ⟨htasks, ?_, ?_, ?_⟩
  · rw [htasks]
    simp
  · intro i t hi
    rw [htasks]
    have hlt : i < s.tasks.length := by
      rcases Nat.lt_or_ge i s.tasks.length with hlt | hge
      · exact hlt
      · rw [List.getElem?_eq_none hge] at hi
        cases hi
    rw [List.getElem?_append_left hlt]
    exact hi
  · simp [addTask, h, renderTasks, saveData, updateTaskCount]

/-- Instance of C1: adding `"  Call Ana "` to the two example tasks. -/
theorem addTask_appends_one_task_witness :
    jsTrim exampleState.inputBox ≠ "" ∧
      (addTask exampleEnv exampleState).tasks =
        exampleTasks ++ [{ id := 1735128000000, text := "Call Ana", priority := "medium",
                           dueDate := "2024-12-31", completed := false }] :=
  ⟨by decide, (addTask_appends_one_task exampleEnv exampleState (by decide)).1⟩

/-- C2: when the input box is empty or holds only white space, `addTask` takes the
failure path: it raises the alert `Please enter a task!` and changes nothing else,
so the task collection (and the view, the counter and the storage) stay as they
were. -/
theorem addTask_blank_input_alerts (env : Env) (s : AppState)
    (h : ∀ c ∈ s.inputBox.data, isJsWhiteSpace c = true) :
    addTask env s = { s with alerts := s.alerts ++ ["Please enter a task!"] } ∧
      (addTask env s).tasks = s.tasks := by
  have ht : jsTrim s.inputBox = "" := (jsTrim_eq_empty s.inputBox).mpr h
  constructor <;> simp [addTask, ht]

/-- Instance of C2: the input `"   "` of three spaces. -/
theorem addTask_blank_input_alerts_witness :
    (∀ c ∈ "   ".data, isJsWhiteSpace c = true) ∧
      (addTask exampleEnv { exampleState with inputBox := "   " }).tasks = exampleTasks ∧
      (addTask exampleEnv { exampleState with inputBox := "   " }).alerts =
        ["Please enter a task!"] :=
  ⟨by decide,
   (addTask_blank_input_alerts exampleEnv { exampleState with inputBox := "   " }
      (by decide)).2,
   congrArg AppState.alerts
     (addTask_blank_input_alerts exampleEnv { exampleState with inputBox := "   " }
        (by decide)).1⟩

/-! ## Deleting and toggling -/

/-- C3: the delete branch of `handleListClick` removes exactly the tasks whose id is
the clicked one: no task of the result has that id, the result is a sublist of the
old collection (the survivors keep their values and relative order), every task
with another id occurs as often as before, and when no task has the id the
collection is unchanged. -/
theorem handleListClick_delete (env : Env) (s : AppState) (taskId : Int) :
    (∀ t ∈ (handleListClick env ⟨some taskId, true⟩ s).tasks, t.id ≠ taskId) ∧
      ((handleListClick env ⟨some taskId, true⟩ s).tasks).Sublist s.tasks ∧
      (∀ t, t.id ≠ taskId →
        ((handleListClick env ⟨some taskId, true⟩ s).tasks).count t = s.tasks.count t) ∧
      ((∀ t ∈ s.tasks, t.id ≠ taskId) →
        (handleListClick env ⟨some taskId, true⟩ s).tasks = s.tasks) := by
  have htasks : (handleListClick env ⟨some taskId, true⟩ s).tasks =
      s.tasks.filter fun task => task.id ≠ taskId := by
    simp [handleListClick, renderTasks_tasks]
  rw [htasks]
  refine ⟨?_, List.filter_sublist _, ?_, ?_⟩
  · intro t ht
    simpa using (List.mem_filter.mp ht).2
  · intro t ht
    rw [List.count_filter]
    simpa using ht
  · intro hall
    apply List.filter_eq_self.mpr
    intro t ht
    simpa using hall t ht

/-- Instance of C3: deleting an id that no example task has. -/
theorem handleListClick_delete_witness :
    (∀ t ∈ exampleTasks, t.id ≠ 7) ∧
      (handleListClick exampleEnv ⟨some 7, true⟩ exampleState).tasks = exampleTasks :=
  ⟨by decide, (handleListClick_delete exampleEnv exampleState 7).2.2.2 (by decide)⟩

/-- C4: toggling the completion of an id twice gives back the original collection
(the whole state is the re-rendered original); one toggle keeps the length and the
id, text, priority and due date at every position, leaves every task with another
id in place, and flips `completed` on the first task with the id and on no other;
toggling an id that no task has leaves the collection unchanged. -/
theorem handleListClick_toggle (env : Env) (s : AppState) (taskId : Int) :
    (handleListClick env ⟨some taskId, false⟩
        (handleListClick env ⟨some taskId, false⟩ s)).tasks = s.tasks ∧
      handleListClick env ⟨some taskId, false⟩
        (handleListClick env ⟨some taskId, false⟩ s) = renderTasks env s ∧
      ((handleListClick env ⟨some taskId, false⟩ s).tasks.map
          fun t => (t.id, t.text, t.priority, t.dueDate)) =
        s.tasks.map (fun t => (t.id, t.text, t.priority, t.dueDate)) ∧
      (∀ (i : Nat) (t : Task), s.tasks[i]? = some t → t.id ≠ taskId →
        (handleListClick env ⟨some taskId, false⟩ s).tasks[i]? = some t) ∧
      (∀ (pre post : List Task) (t : Task), s.tasks = pre ++ t :: post → (∀ x ∈ pre, x.id ≠ taskId) →
        t.id = taskId →
        (handleListClick env ⟨some taskId, false⟩ s).tasks =
          pre ++ { t with completed := !t.completed } :: post) ∧
      ((∀ t ∈ s.tasks, t.id ≠ taskId) →
        (handleListClick env ⟨some taskId, false⟩ s).tasks = s.tasks) := by
  have htasks : ∀ st : AppState, (handleListClick env ⟨some taskId, false⟩ st).tasks =
      updateFound (fun task => task.id = taskId)
        (fun task => { task with completed := !task.completed }) st.tasks := by
    intro st
    simp [handleListClick, renderTasks_tasks]
  have hinv : updateFound (fun task => task.id = taskId)
      (fun task => { task with completed := !task.completed })
      (updateFound (fun task => task.id = taskId)
        (fun task => { task with completed := !task.completed }) s.tasks) = s.tasks :=
    updateFound_involutive (fun task => task.id = taskId)
      (fun task => { task with completed := !task.completed })
      (fun _ => rfl) (fun t => by cases t; simp) s.tasks
  refine ⟨?_, ?_, ?_, ?_, ?_, ?_⟩
  · rw [htasks, htasks, hinv]
  · simp only [handleListClick, Bool.false_eq_true, if_false, renderTasks_tasks, hinv]
    rfl
  · rw [htasks]
    exact updateFound_map_eq (fun task => task.id = taskId)
      (fun task => { task with completed := !task.completed })
      (fun t => (t.id, t.text, t.priority, t.dueDate)) (fun _ => rfl) s.tasks
  · intro i t hi hne
    rw [htasks]
    exact updateFound_getElem?_of_not _ _ _ i t hi (by simpa using hne)
  · intro pre post t hs hpre ht
    rw [htasks, hs]
    exact updateFound_split _ _ pre post t (fun x hx => by simpa using hpre x hx)
      (by simpa using ht)
  · intro hall
    rw [htasks]
    exact updateFound_of_forall_not _ _ _ (fun t ht => by simpa using hall t ht)

/-- Instance of C4: toggling the first example task, which no task precedes. -/
theorem handleListClick_toggle_witness :
    (∀ x ∈ ([] : List Task), x.id ≠ 1735000000001) ∧
      (handleListClick exampleEnv ⟨some 1735000000001, false⟩ exampleState).tasks =
        [ { id := 1735000000001, text := "Buy milk", priority := "low", dueDate := "",
            completed := true },
          { id := 1735000000002, text := "Pay rent", priority := "high",
            dueDate := "2024-12-20", completed := true } ] :=
  ⟨by simp,
   (handleListClick_toggle exampleEnv exampleState 1735000000001).2.2.2.2.1 []
     [{ id := 1735000000002, text := "Pay rent", priority := "high",
        dueDate := "2024-12-20", completed := true }]
     { id := 1735000000001, text := "Buy milk", priority := "low", dueDate := "",
       completed := false }
     rfl (by simp) rfl⟩

/-! ## Editing -/

/-- C5: `updateTaskText` with a new text that is empty or only white space leaves
the whole collection unchanged; with any other new text it stores the trimmed text
(`"  New  "` is stored as `"New"`) in the first task with the id, keeps the length
and the id, priority, due date and completed flag at every position, leaves every
task with another id in place, and changes nothing when no task has the id. -/
theorem updateTaskText_effect (env : Env) (s : AppState) (id : Int) (newText : String) :
    ((∀ c ∈ newText.data, isJsWhiteSpace c = true) →
        (updateTaskText env id newText s).tasks = s.tasks) ∧
      ((updateTaskText env id newText s).tasks.map
          fun t => (t.id, t.priority, t.dueDate, t.completed)) =
        s.tasks.map (fun t => (t.id, t.priority, t.dueDate, t.completed)) ∧
      (∀ (i : Nat) (t : Task), s.tasks[i]? = some t → t.id ≠ id →
        (updateTaskText env id newText s).tasks[i]? = some t) ∧
      (∀ (pre post : List Task) (t : Task), jsTrim newText ≠ "" →
        s.tasks = pre ++ t :: post → (∀ x ∈ pre, x.id ≠ id) → t.id = id →
        (updateTaskText env id newText s).tasks =
          pre ++ { t with text := jsTrim newText } :: post) ∧
      ((∀ t ∈ s.tasks, t.id ≠ id) → (updateTaskText env id newText s).tasks = s.tasks) ∧
      jsTrim "  New  " = "New" := by
  have htasks : (updateTaskText env id newText s).tasks =
      if jsTrim newText ≠ "" then
        updateFound (fun task => task.id = id)
          (fun task => { task with text := jsTrim newText }) s.tasks
      else s.tasks := by
    simp [updateTaskText, renderTasks_tasks]
  refine ⟨?_, ?_, ?_, ?_, ?_, by decide⟩
  · intro hws
    have ht : jsTrim newText = "" := (jsTrim_eq_empty newText).mpr hws
    rw [htasks]
    simp [ht]
  · rw [htasks]
    split
    · exact updateFound_map_eq (fun task => task.id = id)
        (fun task => { task with text := jsTrim newText })
        (fun t => (t.id, t.priority, t.dueDate, t.completed)) (fun _ => rfl) s.tasks
    · rfl
  · intro i t hi hne
    rw [htasks]
    split
    · exact updateFound_getElem?_of_not _ _ _ i t hi (by simpa using hne)
    · exact hi
  · intro pre post t hne hs hpre ht
    rw [htasks, if_pos hne, hs]
    exact updateFound_split _ _ pre post t (fun x hx => by simpa using hpre x hx)
      (by simpa using ht)
  · intro hall
    rw [htasks]
    split
    · exact updateFound_of_forall_not _ _ _ (fun t ht => by simpa using hall t ht)
    · rfl

/-- Instance of C5: editing the second example task to `"  New  "`. -/
theorem updateTaskText_effect_witness :
    jsTrim "  New  " ≠ "" ∧
      (updateTaskText exampleEnv 1735000000002 "  New  " exampleState).tasks =
        [ { id := 1735000000001, text := "Buy milk", priority := "low", dueDate := "",
            completed := false },
          { id := 1735000000002, text := "New", priority := "high",
            dueDate := "2024-12-20", completed := true } ] :=
  ⟨by decide,
   ((updateTaskText_effect exampleEnv exampleState 1735000000002 "  New  ").2.2.2.1
      [{ id := 1735000000001, text := "Buy milk", priority := "low", dueDate := "",
         completed := false }]
      []
      { id := 1735000000002, text := "Pay rent", priority := "high",
        dueDate := "2024-12-20", completed := true }
      (by decide) rfl (by decide) rfl).trans (by decide)⟩

/-! ## Filtering and counting -/

/-- C6: the visible subset of `renderTasks` is the tasks with `completed = false`
under the filter `active`, those with `completed = true` under `completed`, and the
whole collection under `all`; it is a sublist of the collection (collection order),
the rendered list is built from it item by item, and after any sequence of earlier
filter clicks a click on a filter span shows the subset of that filter alone. -/
theorem renderTasks_visible_subset (env : Env) (s : AppState) (history : List FilterClick) :
    (s.currentFilter = "active" →
        filteredTasks s = s.tasks.filter fun t => !t.completed) ∧
      (s.currentFilter = "completed" →
        filteredTasks s = s.tasks.filter fun t => t.completed) ∧
      (s.currentFilter = "all" → filteredTasks s = s.tasks) ∧
      (filteredTasks s).Sublist s.tasks ∧
      (renderTasks env s).listContainer =
        (if filteredTasks s = [] then ListView.noTasks
         else ListView.items ((filteredTasks s).map (renderLi env))) ∧
      filteredTasks (handleFilterClick env ⟨"SPAN", "filter-active"⟩
          (clickFilters env history s)) = s.tasks.filter (fun t => !t.completed) ∧
      filteredTasks (handleFilterClick env ⟨"SPAN", "filter-completed"⟩
          (clickFilters env history s)) = s.tasks.filter (fun t => t.completed) ∧
      filteredTasks (handleFilterClick env ⟨"SPAN", "filter-all"⟩
          (clickFilters env history s)) = s.tasks := by
  have hact : filterPred "active" = fun t => !t.completed := by
    funext t
    simp [filterPred]
  have hcom : filterPred "completed" = fun t => t.completed := by
    funext t
    have : ¬ ("completed" = "active") := by decide
    simp [filterPred, this]
  have hall : filterPred "all" = fun _ => true := by
    funext t
    have h1 : ¬ ("all" = "active") := by decide
    have h2 : ¬ ("all" = "completed") := by decide
    simp [filterPred, h1, h2]
  refine ⟨?_, ?_, ?_, List.filter_sublist _, ?_, ?_, ?_, ?_⟩
  · intro h
    simp only [filteredTasks, h, hact]
  · intro h
    simp only [filteredTasks, h, hcom]
  · intro h
    simp only [filteredTasks, h, hall, List.filter_true]
  · simp only [renderTasks, saveData, updateTaskCount, List.length_eq_zero]
  · rw [filteredTasks_after_click env "filter-active" "active" _ (by decide),
      clickFilters_tasks, hact]
  · rw [filteredTasks_after_click env "filter-completed" "completed" _ (by decide),
      clickFilters_tasks, hcom]
  · rw [filteredTasks_after_click env "filter-all" "all" _ (by decide),
      clickFilters_tasks, hall, List.filter_true]

/-- Instance of C6: the example tasks under the filter `completed`. -/
theorem renderTasks_visible_subset_witness :
    ({ exampleState with currentFilter := "completed" } : AppState).currentFilter
        = "completed" ∧
      filteredTasks { exampleState with currentFilter := "completed" } =
        [{ id := 1735000000002, text := "Pay rent", priority := "high",
           dueDate := "2024-12-20", completed := true }] :=
  ⟨rfl,
   ((renderTasks_visible_subset exampleEnv
      { exampleState with currentFilter := "completed" } []).2.1 rfl).trans (by decide)⟩

/-- C7: the counter text of `updateTaskCount` is built from the number `n` of tasks
with `completed = false` in the whole collection: `1 task left` when `n = 1` and
`n tasks left` for every other `n`, `0 tasks left` when `n = 0`; `renderTasks`
shows this text whatever the current filter is. -/
theorem updateTaskCount_text (env : Env) (s : AppState) :
    (updateTaskCount s).taskCounter =
        (if (s.tasks.filter fun t => !t.completed).length = 1 then "1 task left"
         else toString (s.tasks.filter fun t => !t.completed).length ++ " tasks left") ∧
      (renderTasks env s).taskCounter = (updateTaskCount s).taskCounter ∧
      ((s.tasks.filter fun t => !t.completed).length = 0 →
        (updateTaskCount s).taskCounter = "0 tasks left") := by
  have h : (updateTaskCount s).taskCounter =
      counterText (s.tasks.filter fun t => !t.completed).length := rfl
  refine ⟨?_, rfl, ?_⟩
  · rw [h, counterText_eq]
  · intro h0
    rw [h, h0]
    decide

/-- Instance of C7: the counter of an empty collection. -/
theorem updateTaskCount_text_witness :
    (([] : List Task).filter fun t => !t.completed).length = 0 ∧
      (updateTaskCount { exampleState with tasks := [] }).taskCounter = "0 tasks left" :=
  ⟨rfl, (updateTaskCount_text exampleEnv { exampleState with tasks := [] }).2.2 rfl⟩

/-! ## Serialization and parsing -/

theorem digitChar_facts : ∀ k < 10,
    (Nat.digitChar k).isDigit = true ∧ digitVal (Nat.digitChar k) = k ∧
      (Nat.digitChar k = '0' → k = 0) := by
  decide

theorem digitsVal_append_single (pre : List Char) (d : Char) :
    digitsVal (pre ++ [d]) = 10 * digitsVal pre + digitVal d := by
  simp [digitsVal, List.foldl_append]

/-- Shape of the output of `Nat.toDigitsCore` in base ten. -/
theorem toDigitsCore_spec (fuel : Nat) : ∀ (n : Nat) (ds : List Char), n < fuel →
    ∃ pre : List Char, Nat.toDigitsCore 10 fuel n ds = pre ++ ds ∧
      (∀ c ∈ pre, c.isDigit = true) ∧ digitsVal pre = n ∧
      ∃ c rest, pre = c :: rest ∧ (c = '0' → n = 0 ∧ rest = []) := by
  induction fuel with
  | zero => intro n ds h; omega
  | succ fuel ih =>
    intro n ds h
    obtain ⟨hd, hv, hz⟩ := digitChar_facts (n % 10) (Nat.mod_lt _ (by decide))
    unfold Nat.toDigitsCore
    by_cases h0 : n / 10 = 0
    · have hn : n % 10 = n := by omega
      refine ⟨[Nat.digitChar (n % 10)], by simp [h0], ?_, ?_, _, [], rfl, ?_⟩
      · intro c hc
        simp at hc
        subst hc
        exact hd
      · simp only [digitsVal, List.foldl_cons, List.foldl_nil]
        omega
      · intro hc
        exact ⟨by have := hz hc; omega, rfl⟩
    · obtain ⟨pre, hpre, hall, hval, c, rest, hcr, hc0⟩ :=
        ih (n / 10) (Nat.digitChar (n % 10) :: ds) (by omega)
      refine ⟨pre ++ [Nat.digitChar (n % 10)], ?_, ?_, ?_, c,
        rest ++ [Nat.digitChar (n % 10)], by simp [hcr], ?_⟩
      · simp [h0, hpre]
      · intro x hx
        rcases List.mem_append.mp hx with hx | hx
        · exact hall x hx
        · simp at hx
          subst hx
          exact hd
      · rw [digitsVal_append_single, hval, hv]
        omega
      · intro hc
        exact absurd (hc0 hc).1 h0

/-- Decimal digits of a natural number: all digits, the right value, and no leading
zero except for zero itself. -/
theorem toString_nat_spec (n : Nat) :
    (∀ c ∈ (toString n).data, c.isDigit = true) ∧ digitsVal (toString n).data = n ∧
      ∃ c rest, (toString n).data = c :: rest ∧ (c = '0' → n = 0 ∧ rest = []) := by
  obtain ⟨pre, hpre, hall, hval, hshape⟩ := toDigitsCore_spec (n + 1) n [] (by omega)
  have hdata : (toString n).data = pre := by
    show (Nat.repr n).data = pre
    simp [Nat.repr, Nat.toDigits, hpre, List.asString]
  rw [hdata]
  exact ⟨hall, hval, hshape⟩

theorem parseUnsigned_digits (neg : Bool) (c : Char) (ds : List Char) (x : Char)
    (r : List Char) (hc : c.isDigit = true) (hds : ∀ d ∈ ds, d.isDigit = true)
    (h0 : c = '0' → ds = []) (hx : endsNumber x) :
    parseUnsigned neg (c :: ds ++ x :: r) =
      .ok (Json.num (if neg then -(digitsVal (c :: ds) : Int) else digitsVal (c :: ds)) 0,
        x :: r) := by
  obtain ⟨hxd, hx1, hx2, hx3⟩ := hx
  have htake : (ds ++ x :: r).takeWhile Char.isDigit = ds := by
    rw [List.takeWhile_append_of_pos hds]
    simp [hxd]
  have hdrop : (ds ++ x :: r).dropWhile Char.isDigit = x :: r := by
    rw [List.dropWhile_append_of_pos hds]
    simp [hxd]
  have hfrac : parseFrac (x :: r) = .ok ([], x :: r) := by
    simp [parseFrac, hx1]
  have hexp : parseExp (x :: r) = .ok (0, x :: r) := by
    simp [parseExp, hx2, hx3]
  by_cases hz : c = '0'
  · have hnil := h0 hz
    subst hnil
    subst hz
    simp [parseUnsigned, hfrac, hexp]
  · simp [parseUnsigned, hc, hz, htake, hdrop, hfrac, hexp]

theorem isDigit_ne (c : Char) (hc : c.isDigit = true) :
    c ≠ '-' ∧ c ≠ '"' ∧ c ≠ '[' ∧ c ≠ '{' ∧ c ≠ 't' ∧ c ≠ 'f' ∧ c ≠ 'n' := by
  refine ⟨?_, ?_, ?_, ?_, ?_, ?_, ?_⟩ <;>
  · intro h
    subst h
    exact absurd hc (by decide)

theorem parseNumber_numberToString (n : Int) (x : Char) (r : List Char) (hx : endsNumber x) :
    parseNumber ((numberToString n).data ++ x :: r) = .ok (Json.num n 0, x :: r) := by
  unfold numberToString
  by_cases hn : n < 0
  · obtain ⟨hall, hval, c, ds, hcd, hc0⟩ := toString_nat_spec n.natAbs
    have hc : c.isDigit = true := hall c (by simp [hcd])
    have hds : ∀ d ∈ ds, d.isDigit = true := fun d hd => hall d (by simp [hcd, hd])
    have hdata : ("-" ++ toString n.natAbs).data = '-' :: c :: ds := by
      rw [String.data_append, hcd]
      rfl
    rw [if_pos hn, hdata]
    have := parseUnsigned_digits true c ds x r hc hds (fun h => (hc0 h).2) hx
    have hval2 : digitsVal (c :: ds) = n.natAbs := by rw [← hcd]; exact hval
    rw [hval2] at this
    simp only [parseNumber, List.cons_append, if_true]
    rw [← List.cons_append, this]
    have : -(n.natAbs : Int) = n := by omega
    rw [if_pos rfl, this]
  · obtain ⟨hall, hval, c, ds, hcd, hc0⟩ := toString_nat_spec n.toNat
    have hc : c.isDigit = true := hall c (by simp [hcd])
    have hds : ∀ d ∈ ds, d.isDigit = true := fun d hd => hall d (by simp [hcd, hd])
    rw [if_neg hn, hcd]
    have := parseUnsigned_digits false c ds x r hc hds (fun h => (hc0 h).2) hx
    have hval2 : digitsVal (c :: ds) = n.toNat := by rw [← hcd]; exact hval
    rw [hval2] at this
    simp only [parseNumber, List.cons_append, (isDigit_ne c hc).1, if_false]
    rw [← List.cons_append, this]
    have : (n.toNat : Int) = n := by omega
    simp only [Bool.false_eq_true, if_false, this]

theorem numberToString_head (n : Int) :
    ∃ c cs, (numberToString n).data = c :: cs ∧ (c = '-' ∨ c.isDigit = true) := by
  unfold numberToString
  by_cases hn : n < 0
  · rw [if_pos hn]
    exact ⟨'-', (toString n.natAbs).data, by rw [String.data_append]; rfl, Or.inl rfl⟩
  · obtain ⟨hall, _, c, ds, hcd, _⟩ := toString_nat_spec n.toNat
    rw [if_neg hn]
    exact ⟨c, ds, hcd, Or.inr (hall c (by simp [hcd]))⟩

theorem parseValue_numberToString (fuel : Nat) (n : Int) (x : Char) (r : List Char)
    (hx : endsNumber x) :
    parseValue (fuel + 1) ((numberToString n).data ++ x :: r) = .ok (Json.num n 0, x :: r) := by
  rw [← parseNumber_numberToString n x r hx]
  obtain ⟨c, cs, hcs, hc⟩ := numberToString_head n
  rw [hcs]
  rcases hc with hc | hc
  · subst hc
    simp [parseValue]
  · obtain ⟨_, h1, h2, h3, h4, h5, h6⟩ := isDigit_ne c hc
    simp [parseValue, h1, h2, h3, h4, h5, h6]

theorem hex4_unicodeEscape : ∀ n < 32,
    hex4 (hexDigit (n / 4096 % 16)) (hexDigit (n / 256 % 16)) (hexDigit (n / 16 % 16))
      (hexDigit (n % 16)) = some n := by
  decide

theorem stringStep_unicodeEscape (n : Nat) (hn : n < 32) (tail : List Char) :
    stringStep (unicodeEscape n ++ tail) = .char (Char.ofNat n) tail := by
  have h1 : ¬ (55296 ≤ n ∧ n ≤ 56319) := by omega
  have h2 : ¬ (56320 ≤ n ∧ n ≤ 57343) := by omega
  simp only [unicodeEscape, List.cons_append, List.nil_append]
  simp [stringStep, unicodeStep, hex4_unicodeEscape n hn, h1, h2]

theorem stringStep_quoteChar (c : Char) (tail : List Char) :
    stringStep (quoteChar c ++ tail) = .char c tail := by
  unfold quoteChar
  split
  · next h => subst h; simp [stringStep, simpleEscape]
  split
  · next h => subst h; simp [stringStep, simpleEscape]
  split
  · next h => subst h; simp [stringStep, simpleEscape]
  split
  · next h => subst h; simp [stringStep, simpleEscape]
  split
  · next h => subst h; simp [stringStep, simpleEscape]
  split
  · next h => subst h; simp [stringStep, simpleEscape]
  split
  · next h => subst h; simp [stringStep, simpleEscape]
  split
  · next h =>
    rw [stringStep_unicodeEscape c.toNat h tail, Char.ofNat_toNat]
  · next h1 h2 h3 h4 h5 h6 h7 h8 =>
    simp [stringStep, h6, h7, h8]

theorem quoteChar_length_pos (c : Char) : 1 ≤ (quoteChar c).length := by
  unfold quoteChar unicodeEscape
  repeat' split
  all_goals simp

theorem length_le_flatMap_quoteChar (cs : List Char) :
    cs.length ≤ (cs.flatMap quoteChar).length := by
  induction cs with
  | nil => simp
  | cons c cs ih =>
    have := quoteChar_length_pos c
    simp only [List.flatMap_cons, List.length_append, List.length_cons]
    omega

theorem parseStringSteps_quoted (cs rest : List Char) :
    ∀ fuel, cs.length < fuel →
      parseStringSteps fuel (cs.flatMap quoteChar ++ '"' :: rest) = .ok (cs, rest) := by
  induction cs with
  | nil =>
    intro fuel h
    obtain ⟨f, rfl⟩ : ∃ f, fuel = f + 1 := ⟨fuel - 1, by omega⟩
    simp [parseStringSteps, stringStep]
  | cons c cs ih =>
    intro fuel h
    obtain ⟨f, rfl⟩ : ∃ f, fuel = f + 1 := ⟨fuel - 1, by omega⟩
    have hf : cs.length < f := by simpa using h
    rw [List.flatMap_cons, List.append_assoc, parseStringSteps, stringStep_quoteChar]
    simp only [ih f hf]
    rfl

theorem parseString_quoted (cs rest : List Char) :
    parseString (cs.flatMap quoteChar ++ '"' :: rest) = .ok (cs, rest) := by
  unfold parseString
  apply parseStringSteps_quoted
  have := length_le_flatMap_quoteChar cs
  simp only [List.length_append, List.length_cons]
  omega

theorem quoteJSONString_append (s : String) (rest : List Char) :
    quoteJSONString s ++ rest = '"' :: (s.data.flatMap quoteChar ++ '"' :: rest) := by
  simp [quoteJSONString]

theorem parseValue_quoted (fuel : Nat) (s : String) (rest : List Char) :
    parseValue (fuel + 1) (quoteJSONString s ++ rest) = .ok (Json.str s, rest) := by
  rw [quoteJSONString_append]
  simp [parseValue, parseString_quoted, Except.map]

theorem skipWs_cons (c : Char) (r : List Char) (h : isJsonWs c = false) :
    skipWs (c :: r) = c :: r := by
  simp [skipWs, h]

theorem parseValue_bool (fuel : Nat) (b : Bool) (rest : List Char) :
    parseValue (fuel + 1) ((if b then "true" else "false").data ++ rest) =
      .ok (Json.bool b, rest) := by
  cases b
  · have : "false".data = ['f', 'a', 'l', 's', 'e'] := rfl
    simp [this, parseValue]
  · have : "true".data = ['t', 'r', 'u', 'e'] := rfl
    simp [this, parseValue]

/-- One member followed by a comma: the key in quotes, a colon, a value. -/
theorem parseMembers_comma (fuel : Nat) (key : String) (r2 r4 : List Char) (v : Json)
    (h2 : skipWs r2 = r2) (hv : parseValue fuel r2 = .ok (v, ',' :: r4))
    (h4 : skipWs r4 = r4) :
    parseMembers (fuel + 1) (quoteJSONString key ++ ':' :: r2) =
      (parseMembers fuel r4).map fun p => ((key, v) :: p.1, p.2) := by
  rw [quoteJSONString_append]
  have hs : skipWs (':' :: r2) = ':' :: r2 := skipWs_cons _ _ (by decide)
  have hc : skipWs (',' :: r4) = ',' :: r4 := skipWs_cons _ _ (by decide)
  simp [parseMembers, parseString_quoted, hs, h2, hv, hc, h4]

/-- The last member of an object, followed by the closing brace. -/
theorem parseMembers_last (fuel : Nat) (key : String) (r2 r4 : List Char) (v : Json)
    (h2 : skipWs r2 = r2) (hv : parseValue fuel r2 = .ok (v, '}' :: r4)) :
    parseMembers (fuel + 1) (quoteJSONString key ++ ':' :: r2) = .ok ([(key, v)], r4) := by
  rw [quoteJSONString_append]
  have hs : skipWs (':' :: r2) = ':' :: r2 := skipWs_cons _ _ (by decide)
  have hc : skipWs ('}' :: r4) = '}' :: r4 := skipWs_cons _ _ (by decide)
  simp [parseMembers, parseString_quoted, hs, h2, hv, hc]

theorem skipWs_quoteJSONString (s : String) (rest : List Char) :
    skipWs (quoteJSONString s ++ rest) = quoteJSONString s ++ rest := by
  rw [quoteJSONString_append]
  exact skipWs_cons _ _ (by decide)

theorem skipWs_numberToString (n : Int) (rest : List Char) :
    skipWs ((numberToString n).data ++ rest) = (numberToString n).data ++ rest := by
  obtain ⟨c, cs, hcs, hc⟩ := numberToString_head n
  rw [hcs]
  apply skipWs_cons
  rcases hc with hc | hc
  · subst hc
    decide
  · cases hws : isJsonWs c
    · rfl
    · exfalso
      simp only [isJsonWs, Bool.or_eq_true, beq_iff_eq] at hws
      rcases hws with ((h | h) | h) | h <;> subst h <;> exact absurd hc (by decide)

theorem skipWs_bool (b : Bool) (rest : List Char) :
    skipWs ((if b then "true" else "false").data ++ rest) =
      (if b then "true" else "false").data ++ rest := by
  cases b
  · exact skipWs_cons _ _ (by decide)
  · exact skipWs_cons _ _ (by decide)

/-- The serialization of a task, as keys, colons, values and commas. -/
theorem stringifyTask_append (t : Task) (rest : List Char) :
    stringifyTask t ++ rest =
      '{' :: (quoteJSONString "id" ++ ':' :: ((numberToString t.id).data ++ ',' ::
        (quoteJSONString "text" ++ ':' :: (quoteJSONString t.text ++ ',' ::
        (quoteJSONString "priority" ++ ':' :: (quoteJSONString t.priority ++ ',' ::
        (quoteJSONString "dueDate" ++ ':' :: (quoteJSONString t.dueDate ++ ',' ::
        (quoteJSONString "completed" ++ ':' ::
          ((if t.completed then "true" else "false").data ++ '}' :: rest)))))))))) := by
  have h1 : "\x7b\"id\":".data = '{' :: (quoteJSONString "id" ++ [':']) := by decide
  have h2 : ",\"text\":".data = ',' :: (quoteJSONString "text" ++ [':']) := by decide
  have h3 : ",\"priority\":".data = ',' :: (quoteJSONString "priority" ++ [':']) := by decide
  have h4 : ",\"dueDate\":".data = ',' :: (quoteJSONString "dueDate" ++ [':']) := by decide
  have h5 : ",\"completed\":".data = ',' :: (quoteJSONString "completed" ++ [':']) := by
    decide
  unfold stringifyTask
  rw [h1, h2, h3, h4, h5]
  simp only [List.append_assoc, List.cons_append, List.nil_append]

theorem parseMembers_num_comma (fuel : Nat) (key : String) (n : Int) (r4 : List Char)
    (h4 : skipWs r4 = r4) :
    parseMembers (fuel + 2) (quoteJSONString key ++ ':' ::
        ((numberToString n).data ++ ',' :: r4)) =
      (parseMembers (fuel + 1) r4).map fun p => ((key, Json.num n 0) :: p.1, p.2) :=
  parseMembers_comma (fuel + 1) key _ r4 _ (skipWs_numberToString n _)
    (parseValue_numberToString fuel n ',' r4 ⟨by decide, by decide, by decide, by decide⟩) h4

theorem parseMembers_str_comma (fuel : Nat) (key val : String) (r4 : List Char)
    (h4 : skipWs r4 = r4) :
    parseMembers (fuel + 2) (quoteJSONString key ++ ':' ::
        (quoteJSONString val ++ ',' :: r4)) =
      (parseMembers (fuel + 1) r4).map fun p => ((key, Json.str val) :: p.1, p.2) :=
  parseMembers_comma (fuel + 1) key _ r4 _ (skipWs_quoteJSONString val _)
    (parseValue_quoted fuel val _) h4

theorem parseMembers_bool_last (fuel : Nat) (key : String) (b : Bool) (r4 : List Char) :
    parseMembers (fuel + 2) (quoteJSONString key ++ ':' ::
        ((if b then "true" else "false").data ++ '}' :: r4)) =
      .ok ([(key, Json.bool b)], r4) :=
  parseMembers_last (fuel + 1) key _ r4 _ (skipWs_bool b _) (parseValue_bool fuel b _)

theorem parseValue_stringifyTask (fuel : Nat) (t : Task) (rest : List Char) :
    parseValue (fuel + 7) (stringifyTask t ++ rest) = .ok (taskJson t, rest) := by
  rw [stringifyTask_append]
  have hobj : ∀ body : List Char, skipWs body = body → (∃ c r, body = c :: r ∧ c ≠ '}') →
      parseValue (fuel + 7) ('{' :: body) =
        (parseMembers (fuel + 6) body).map fun p => (Json.obj p.1, p.2) := by
    intro body hb ⟨c, r, hcr, hc⟩
    subst hcr
    simp [parseValue, hb, hc]
  rw [hobj _ (skipWs_quoteJSONString _ _)
    ⟨'"', _, quoteJSONString_append _ _, by decide⟩]
  rw [parseMembers_num_comma (fuel + 4) _ _ _ (skipWs_quoteJSONString _ _),
    parseMembers_str_comma (fuel + 3) _ _ _ (skipWs_quoteJSONString _ _),
    parseMembers_str_comma (fuel + 2) _ _ _ (skipWs_quoteJSONString _ _),
    parseMembers_str_comma (fuel + 1) _ _ _ (skipWs_quoteJSONString _ _),
    parseMembers_bool_last fuel]
  rfl

theorem stringifyTask_head (t : Task) :
    ∃ r, stringifyTask t = '{' :: r ∧ 5 ≤ r.length := by
  have h := stringifyTask_append t []
  rw [List.append_nil] at h
  refine ⟨_, h, ?_⟩
  simp only [List.length_append, List.length_cons, quoteJSONString]
  omega


theorem skipWs_stringifyTask (t : Task) (rest : List Char) :
    skipWs (stringifyTask t ++ rest) = stringifyTask t ++ rest := by
  rw [stringifyTask_append]
  exact skipWs_cons _ _ (by decide)

theorem stringifyElements_cons_cons (t t2 : Task) (ts : List Task) :
    stringifyElements (t :: t2 :: ts) =
      stringifyTask t ++ ',' :: stringifyElements (t2 :: ts) := rfl

theorem skipWs_stringifyElements (t : Task) (ts : List Task) (rest : List Char) :
    skipWs (stringifyElements (t :: ts) ++ rest) = stringifyElements (t :: ts) ++ rest := by
  cases ts with
  | nil => exact skipWs_stringifyTask t rest
  | cons t2 ts =>
    rw [stringifyElements_cons_cons, List.append_assoc]
    exact skipWs_stringifyTask t _

theorem parseElements_stringifyElements (ts : List Task) (t : Task) (rest : List Char) :
    ∀ fuel, parseElements (fuel + ts.length + 8) (stringifyElements (t :: ts) ++ ']' :: rest) =
      .ok ((t :: ts).map taskJson, rest) := by
  induction ts generalizing t with
  | nil =>
    intro fuel
    have hv := parseValue_stringifyTask fuel t (']' :: rest)
    have hs : skipWs (']' :: rest) = ']' :: rest := skipWs_cons _ _ (by decide)
    simp [parseElements, stringifyElements, hv, hs]
  | cons t2 ts ih =>
    intro fuel
    have hv := parseValue_stringifyTask (fuel + ts.length + 1) t
      (',' :: (stringifyElements (t2 :: ts) ++ ']' :: rest))
    have hs : ∀ r, skipWs (',' :: r) = ',' :: r := fun r => skipWs_cons _ _ (by decide)
    have hfuel : fuel + (t2 :: ts).length + 8 = (fuel + ts.length + 8) + 1 := by
      simp only [List.length_cons]
      omega
    have hfuel2 : fuel + ts.length + 8 = (fuel + ts.length + 1) + 7 := by omega
    rw [hfuel, stringifyElements_cons_cons, List.append_assoc, List.cons_append,
      parseElements]
    rw [hfuel2] at *
    rw [hv]
    simp only [hs, if_true, skipWs_stringifyElements]
    have := ih t2 fuel
    rw [hfuel2] at this
    rw [this]
    rfl

theorem stringifyElements_length (t : Task) (ts : List Task) :
    ts.length + 6 ≤ (stringifyElements (t :: ts)).length := by
  induction ts generalizing t with
  | nil =>
    obtain ⟨r, hr, hlen⟩ := stringifyTask_head t
    simp only [stringifyElements, hr, List.length_cons, List.length_nil]
    omega
  | cons t2 ts ih =>
    obtain ⟨r, hr, hlen⟩ := stringifyTask_head t
    have := ih t2
    rw [stringifyElements_cons_cons]
    simp only [List.length_append, List.length_cons] at *
    omega

theorem parseValue_array (fuel : Nat) (body : List Char) (c : Char) (r : List Char)
    (hb : skipWs body = c :: r) (hc : c ≠ ']') :
    parseValue (fuel + 1) ('[' :: body) =
      (parseElements fuel (c :: r)).map fun p => (Json.arr p.1, p.2) := by
  simp [parseValue, hb, hc]

/-- Parsing the serialization of a task list gives back the array of its
records. -/
theorem jsonParse_jsonStringify (tasks : List Task) :
    JSON.parse (JSON.stringify tasks) = .ok (Json.arr (tasks.map taskJson)) := by
  cases tasks with
  | nil => rfl
  | cons t ts =>
    have hlen := stringifyElements_length t ts
    have hdata : (JSON.stringify (t :: ts)).data =
        '[' :: (stringifyElements (t :: ts) ++ [']']) := rfl
    obtain ⟨k, hk⟩ : ∃ k, 2 * ('[' :: (stringifyElements (t :: ts) ++ [']'])).length + 1 =
        (k + ts.length + 8) + 1 := by
      refine ⟨2 * (stringifyElements (t :: ts)).length - ts.length - 4, ?_⟩
      simp only [List.length_append, List.length_cons, List.length_nil]
      omega
    have hsk := skipWs_stringifyElements t ts [']']
    obtain ⟨c, r, hcr, hc⟩ : ∃ c r, stringifyElements (t :: ts) ++ [']'] = c :: r ∧ c ≠ ']' := by
      cases ts with
      | nil =>
        obtain ⟨r, hr, _⟩ := stringifyTask_head t
        exact ⟨'{', r ++ [']'], by simp [stringifyElements, hr], by decide⟩
      | cons t2 ts =>
        obtain ⟨r, hr, _⟩ := stringifyTask_head t
        exact ⟨'{', _, by rw [stringifyElements_cons_cons, hr]; rfl, by decide⟩
    have hel := parseElements_stringifyElements ts t [] k
    have hsq : skipWs ('[' :: (stringifyElements (t :: ts) ++ [']'])) =
        '[' :: (stringifyElements (t :: ts) ++ [']']) := skipWs_cons _ _ (by decide)
    unfold JSON.parse
    rw [hdata, hsq, hk, parseValue_array _ _ c r (hsk.trans hcr) hc, ← hcr, hel]
    rfl

theorem asTask_taskJson (t : Task) : asTask (taskJson t) = some t := by
  simp [asTask, taskJson, intOfNum]

theorem asTasks_map_taskJson (ts : List Task) : asTasks (ts.map taskJson) = some ts := by
  induction ts with
  | nil => rfl
  | cons t ts ih => simp [asTasks, asTask_taskJson, ih]

theorem jsonStringify_ne_empty (tasks : List Task) : JSON.stringify tasks ≠ "" := by
  intro h
  have := congrArg String.data h
  simp [JSON.stringify] at this

theorem loadData_of_saved (env : Env) (s0 : AppState) (tasks : List Task)
    (h : s0.storage = some (JSON.stringify tasks)) :
    loadData env s0 = .done (renderTasks env { s0 with tasks := tasks }) := by
  unfold loadData
  simp only [h, jsonStringify_ne_empty, jsonParse_jsonStringify, asTasks_map_taskJson, if_false]


/-! ## The parser stays within its depth bound -/

theorem consumes_syntaxError {α : Type} (n : Nat) :
    Consumes (.error .syntaxError : Except ParseError (α × List Char)) n :=
  ⟨by simp, by simp⟩

theorem consumes_loneSurrogate {α : Type} (n : Nat) :
    Consumes (.error .loneSurrogate : Except ParseError (α × List Char)) n :=
  ⟨by simp, by simp⟩

theorem consumes_ok {α : Type} (v : α) (r : List Char) (n : Nat) (h : r.length < n) :
    Consumes (.ok (v, r)) n := by
  refine ⟨by simp, ?_⟩
  intro v2 r2 h2
  simp only [Except.ok.injEq, Prod.mk.injEq] at h2
  rw [← h2.2]
  exact h

theorem consumes_map {α β : Type} (res : Except ParseError (α × List Char))
    (f : α → β) (m n : Nat) (h : Consumes res m) (hmn : m ≤ n) :
    Consumes (res.map fun p => (f p.1, p.2)) n := by
  cases res with
  | error e =>
    refine ⟨?_, by simp [Except.map]⟩
    intro he
    apply h.1
    simpa [Except.map] using he
  | ok p =>
    obtain ⟨v, r⟩ := p
    have := h.2 v r rfl
    exact consumes_ok _ _ _ (show r.length < n by omega)

theorem consumes_mono {α : Type} (res : Except ParseError (α × List Char)) (m n : Nat)
    (h : Consumes res m) (hmn : m ≤ n) : Consumes res n :=
  ⟨h.1, fun v r hr => Nat.lt_of_lt_of_le (h.2 v r hr) hmn⟩

theorem skipWs_length_le (cs : List Char) : (skipWs cs).length ≤ cs.length :=
  (List.dropWhile_sublist isJsonWs).length_le

theorem lowSurrogate_length (cs : List Char) (lo : Nat) (r : List Char)
    (h : lowSurrogate cs = some (lo, r)) : r.length < cs.length := by
  unfold lowSurrogate at h
  split at h
  · split at h
    · split at h
      · split at h
        · simp only [Option.some.injEq, Prod.mk.injEq] at h
          rw [← h.2]
          simp only [List.length_cons]
          omega
        · cases h
      · cases h
    · cases h
  · cases h

theorem unicodeStep_spec (cs : List Char) :
    unicodeStep cs ≠ .fail .depth ∧
      (∀ r, unicodeStep cs = .close r → r.length < cs.length) ∧
      (∀ c r, unicodeStep cs = .char c r → r.length < cs.length) := by
  unfold unicodeStep
  split
  · next h1 h2 h3 h4 r2 =>
    split
    · simp
    · split
      · split
        · next lo r3 hl =>
          have := lowSurrogate_length r2 lo r3 hl
          refine ⟨by simp, by simp, ?_⟩
          intro c r hc
          simp only [StrStep.char.injEq] at hc
          rw [← hc.2]
          simp only [List.length_cons]
          omega
        · simp
      · split
        · simp
        · refine ⟨by simp, by simp, ?_⟩
          intro c r hc
          simp only [StrStep.char.injEq] at hc
          rw [← hc.2]
          simp only [List.length_cons]
          omega
  · simp

theorem stringStep_spec (cs : List Char) :
    stringStep cs ≠ .fail .depth ∧
      (∀ r, stringStep cs = .close r → r.length < cs.length) ∧
      (∀ c r, stringStep cs = .char c r → r.length < cs.length) := by
  unfold stringStep
  split
  · simp
  · next c r =>
    split
    · refine ⟨by simp, ?_, by simp⟩
      intro r2 h
      simp only [StrStep.close.injEq] at h
      rw [← h]
      simp
    · split
      · split
        · simp
        · next e r1 =>
          split
          · obtain ⟨h1, h2, h3⟩ := unicodeStep_spec r1
            refine ⟨h1, ?_, ?_⟩
            · intro r2 h
              have := h2 r2 h
              simp only [List.length_cons]
              omega
            · intro c2 r2 h
              have := h3 c2 r2 h
              simp only [List.length_cons]
              omega
          · split
            · simp
            · refine ⟨by simp, by simp, ?_⟩
              intro c2 r2 h
              simp only [StrStep.char.injEq] at h
              rw [← h.2]
              simp only [List.length_cons]
              omega
      · split
        · simp
        · refine ⟨by simp, by simp, ?_⟩
          intro c2 r2 h
          simp only [StrStep.char.injEq] at h
          rw [← h.2]
          simp

theorem parseStringSteps_consumes (fuel : Nat) : ∀ cs : List Char, cs.length < fuel →
    Consumes (parseStringSteps fuel cs) cs.length := by
  induction fuel with
  | zero => intro cs h; omega
  | succ fuel ih =>
    intro cs h
    obtain ⟨h1, h2, h3⟩ := stringStep_spec cs
    unfold parseStringSteps
    split
    · next e he =>
      refine ⟨?_, by simp⟩
      intro hd
      simp only [Except.error.injEq] at hd
      rw [hd] at he
      exact h1 he
    · next r hr => exact consumes_ok _ _ _ (h2 r hr)
    · next c r hr =>
      have hlt := h3 c r hr
      exact consumes_map (parseStringSteps fuel r) (fun s => c :: s) r.length cs.length
        (ih r (by omega)) (by omega)

theorem parseString_consumes (cs : List Char) : Consumes (parseString cs) cs.length :=
  parseStringSteps_consumes _ cs (by omega)

theorem dropWhile_isDigit_length_le (cs : List Char) :
    (cs.dropWhile Char.isDigit).length ≤ cs.length :=
  (List.dropWhile_sublist Char.isDigit).length_le

theorem parseFrac_spec (cs : List Char) :
    parseFrac cs ≠ .error .depth ∧
      ∀ ds r, parseFrac cs = .ok (ds, r) → r.length ≤ cs.length := by
  unfold parseFrac
  split
  · simp
  · next c r =>
    have := dropWhile_isDigit_length_le r
    split
    · split
      · simp
      · refine ⟨by simp, ?_⟩
        intro ds r2 h
        simp only [Except.ok.injEq, Prod.mk.injEq] at h
        rw [← h.2]
        simp only [List.length_cons]
        omega
    · refine ⟨by simp, ?_⟩
      intro ds r2 h
      simp only [Except.ok.injEq, Prod.mk.injEq] at h
      rw [← h.2]

theorem parseExpDigits_spec (neg : Bool) (cs : List Char) :
    parseExpDigits neg cs ≠ .error .depth ∧
      ∀ e r, parseExpDigits neg cs = .ok (e, r) → r.length ≤ cs.length := by
  unfold parseExpDigits
  have := dropWhile_isDigit_length_le cs
  split
  · simp
  · refine ⟨by simp, ?_⟩
    intro e r h
    simp only [Except.ok.injEq, Prod.mk.injEq] at h
    rw [← h.2]
    exact this

theorem parseExp_spec (cs : List Char) :
    parseExp cs ≠ .error .depth ∧
      ∀ e r, parseExp cs = .ok (e, r) → r.length ≤ cs.length := by
  unfold parseExp
  split
  · simp
  · next c r =>
    split
    · split
      · simp
      · next sg r1 =>
        have a1 := parseExpDigits_spec false r1
        have a2 := parseExpDigits_spec true r1
        have a3 := parseExpDigits_spec false (sg :: r1)
        split
        · refine ⟨a1.1, fun e r2 h => ?_⟩
          have := a1.2 e r2 h
          simp only [List.length_cons]
          omega
        · split
          · refine ⟨a2.1, fun e r2 h => ?_⟩
            have := a2.2 e r2 h
            simp only [List.length_cons]
            omega
          · refine ⟨a3.1, fun e r2 h => ?_⟩
            have := a3.2 e r2 h
            simp only [List.length_cons] at *
            omega
    · refine ⟨by simp, ?_⟩
      intro e r2 h
      simp only [Except.ok.injEq, Prod.mk.injEq] at h
      rw [← h.2]

theorem parseUnsigned_consumes (neg : Bool) (cs : List Char) :
    Consumes (parseUnsigned neg cs) cs.length := by
  unfold parseUnsigned
  split
  · exact consumes_syntaxError _
  · next c r =>
    split
    · exact consumes_syntaxError _
    · have hr1 : (if c = '0' then r else r.dropWhile Char.isDigit).length ≤ r.length := by
        split
        · exact Nat.le_refl _
        · exact dropWhile_isDigit_length_le r
      obtain ⟨f1, f2⟩ := parseFrac_spec (if c = '0' then r else r.dropWhile Char.isDigit)
      simp only
      split
      · next e he =>
        refine ⟨?_, by simp⟩
        intro hd
        simp only [Except.error.injEq] at hd
        rw [hd] at he
        exact f1 he
      · next fracDigits r2 hf =>
        have hr2 := f2 fracDigits r2 hf
        obtain ⟨e1, e2⟩ := parseExp_spec r2
        split
        · next e he =>
          refine ⟨?_, by simp⟩
          intro hd
          simp only [Except.error.injEq] at hd
          rw [hd] at he
          exact e1 he
        · next ex r3 hx =>
          have hr3 := e2 ex r3 hx
          exact consumes_ok _ _ _ (by simp only [List.length_cons]; omega)

theorem parseNumber_consumes (cs : List Char) : Consumes (parseNumber cs) cs.length := by
  unfold parseNumber
  split
  · exact consumes_syntaxError _
  · next c r =>
    split
    · exact consumes_mono _ _ _ (parseUnsigned_consumes true r) (by simp)
    · exact parseUnsigned_consumes false (c :: r)
theorem consumes_of_error {α β : Type} (res : Except ParseError (α × List Char)) (m n : Nat)
    (e : ParseError) (h : Consumes res m) (he : res = .error e) :
    Consumes (.error e : Except ParseError (β × List Char)) n := by
  refine ⟨?_, by simp⟩
  intro hd
  apply h.1
  simp only [Except.error.injEq] at hd
  rw [he, hd]

/-- With depth for twice the length of the input, the three parsers never stop on
the depth bound, and a value they return leaves a shorter input. -/
theorem parse_consumes (fuel : Nat) :
    (∀ cs : List Char, 2 * cs.length + 1 ≤ fuel →
        Consumes (parseValue fuel cs) cs.length) ∧
      (∀ cs : List Char, 2 * cs.length + 2 ≤ fuel →
        Consumes (parseElements fuel cs) cs.length) ∧
      (∀ cs : List Char, 2 * cs.length + 2 ≤ fuel →
        Consumes (parseMembers fuel cs) cs.length) := by
  induction fuel with
  | zero =>
    refine ⟨?_, ?_, ?_⟩ <;> intro cs h <;> omega
  | succ fuel ih =>
    obtain ⟨ihV, ihE, ihM⟩ := ih
    refine ⟨?_, ?_, ?_⟩
    · intro cs h
      cases cs with
      | nil => simp only [parseValue]; exact consumes_syntaxError _
      | cons c r =>
        simp only [List.length_cons] at h ⊢
        have hsk := skipWs_length_le r
        simp only [parseValue]
        split
        · exact consumes_map (parseString r) (fun s => Json.str ⟨s⟩) r.length _
            (parseString_consumes r) (by omega)
        split
        · split
          · exact consumes_syntaxError _
          · next c1 r1 hr =>
            rw [hr] at hsk
            simp only [List.length_cons] at hsk
            split
            · exact consumes_ok _ _ _ (by omega)
            · exact consumes_map (parseElements fuel (c1 :: r1)) Json.arr (c1 :: r1).length _
                (ihE (c1 :: r1) (by simp only [List.length_cons]; omega))
                (by simp only [List.length_cons]; omega)
        split
        · split
          · exact consumes_syntaxError _
          · next c1 r1 hr =>
            rw [hr] at hsk
            simp only [List.length_cons] at hsk
            split
            · exact consumes_ok _ _ _ (by omega)
            · exact consumes_map (parseMembers fuel (c1 :: r1)) Json.obj (c1 :: r1).length _
                (ihM (c1 :: r1) (by simp only [List.length_cons]; omega))
                (by simp only [List.length_cons]; omega)
        split
        · split
          · exact consumes_ok _ _ _ (by simp only [List.length_drop]; omega)
          · exact consumes_syntaxError _
        split
        · split
          · exact consumes_ok _ _ _ (by simp only [List.length_drop]; omega)
          · exact consumes_syntaxError _
        split
        · split
          · exact consumes_ok _ _ _ (by simp only [List.length_drop]; omega)
          · exact consumes_syntaxError _
        · exact parseNumber_consumes (c :: r)
    · intro cs h
      have hV := ihV cs (by omega)
      simp only [parseElements]
      split
      · next e he => exact consumes_of_error _ _ _ e hV he
      · next v r hv =>
        have hr := hV.2 v r hv
        have hsk := skipWs_length_le r
        split
        · exact consumes_syntaxError _
        · next c r1 hr1 =>
          rw [hr1] at hsk
          simp only [List.length_cons] at hsk
          have hsk2 := skipWs_length_le r1
          split
          · exact consumes_map (parseElements fuel (skipWs r1)) (fun l => v :: l)
              (skipWs r1).length _ (ihE (skipWs r1) (by omega)) (by omega)
          · split
            · exact consumes_ok _ _ _ (by omega)
            · exact consumes_syntaxError _
    · intro cs h
      simp only [parseMembers]
      split
      · exact consumes_syntaxError _
      · next q r =>
        simp only [List.length_cons] at h ⊢
        split
        · have hS := parseString_consumes r
          split
          · next e he => exact consumes_of_error _ _ _ e hS he
          · next key r1 hk =>
            have hr1 := hS.2 key r1 hk
            have hsk1 := skipWs_length_le r1
            split
            · exact consumes_syntaxError _
            · next col r2 hr2 =>
              rw [hr2] at hsk1
              simp only [List.length_cons] at hsk1
              have hsk2 := skipWs_length_le r2
              split
              · have hV := ihV (skipWs r2) (by omega)
                split
                · next e he => exact consumes_of_error _ _ _ e hV he
                · next v r3 hv =>
                  have hr3 := hV.2 v r3 hv
                  have hsk3 := skipWs_length_le r3
                  split
                  · exact consumes_syntaxError _
                  · next c r4 hr4 =>
                    rw [hr4] at hsk3
                    simp only [List.length_cons] at hsk3
                    have hsk4 := skipWs_length_le r4
                    split
                    · exact consumes_map (parseMembers fuel (skipWs r4))
                        (fun l => ((⟨key⟩, v) : String × Json) :: l) (skipWs r4).length _
                        (ihM (skipWs r4) (by omega)) (by omega)
                    · split
                      · exact consumes_ok _ _ _ (by omega)
                      · exact consumes_syntaxError _
              · exact consumes_syntaxError _
        · exact consumes_syntaxError _

/-- `JSON.parse` never stops on the depth bound. -/
theorem jsonParse_ne_depth (text : String) : JSON.parse text ≠ .error .depth := by
  have hV := (parse_consumes (2 * text.data.length + 1)).1 (skipWs text.data)
    (by have := skipWs_length_le text.data; omega)
  unfold JSON.parse
  split
  · next e he =>
    intro hd
    simp only [Except.error.injEq] at hd
    rw [hd] at he
    exact hV.1 he
  · split <;> simp

/-! ## Overdue marking -/

theorem isOverdue_completed (env : Env) (task : Task) (h : task.completed = true) :
    isOverdue env task = false := by
  simp [isOverdue, h]

theorem isOverdue_no_dueDate (env : Env) (task : Task) (h : task.dueDate = "") :
    isOverdue env task = false := by
  simp [isOverdue, h]

theorem digitVal_le_of_isDigit (c : Char) (h : c.isDigit = true) : digitVal c ≤ 9 := by
  simp only [Char.isDigit, Bool.and_eq_true, decide_eq_true_eq] at h
  have h2 : c.val.toNat ≤ 57 := h.2
  show c.val.toNat - 48 ≤ 9
  omega

theorem parseDateOnly_bounds (cs : List Char) (y : Int) (m d : Nat)
    (h : parseDateOnly cs = some (y, m, d)) :
    0 ≤ y ∧ y ≤ 9999 ∧ 1 ≤ m ∧ m ≤ 12 ∧ 1 ≤ d ∧ d ≤ daysInMonth y m ∧ cs ≠ [] := by
  unfold parseDateOnly at h
  split at h
  · next y1 y2 y3 y4 s1 m1 m2 s2 d1 d2 =>
    simp only at h
    split at h
    · next hc =>
      simp only [List.all_cons, List.all_nil, Bool.and_true, Bool.and_eq_true,
        decide_eq_true_eq, beq_iff_eq] at hc
      obtain ⟨⟨⟨⟨⟨⟨⟨a1, a2, a3, a4, _⟩, _⟩, _⟩, hm1⟩, hm2⟩, hd1⟩, hd2⟩ := hc
      simp only [Option.some.injEq, Prod.mk.injEq] at h
      obtain ⟨hy, hm, hd⟩ := h
      have b1 := digitVal_le_of_isDigit y1 a1
      have b2 := digitVal_le_of_isDigit y2 a2
      have b3 := digitVal_le_of_isDigit y3 a3
      have b4 := digitVal_le_of_isDigit y4 a4
      have hyv : digitsVal [y1, y2, y3, y4] ≤ 9999 := by
        simp only [digitsVal, List.foldl_cons, List.foldl_nil]
        omega
      subst hy hm hd
      refine ⟨by omega, by omega, hm1, hm2, hd1, hd2, by simp⟩
    · cases h
  · cases h

theorem daysInMonth_le (y : Int) (m : Nat) : daysInMonth y m ≤ 31 := by
  unfold daysInMonth
  cases isLeapYear y <;> split <;> simp

theorem daysBeforeMonth_le (y : Int) (m : Nat) (hm : m ≤ 12) : daysBeforeMonth y m ≤ 335 := by
  unfold daysBeforeMonth
  cases hl : isLeapYear y <;> interval_cases m <;> simp [List.range_succ, daysInMonth, hl]

theorem makeDay_bounds (y : Int) (m d : Nat) (hy0 : 0 ≤ y) (hy1 : y ≤ 9999) (hm : m ≤ 12)
    (hd : d ≤ 31) : -719529 ≤ makeDay y m d ∧ makeDay y m d ≤ 2933000 := by
  have hb := daysBeforeMonth_le y m hm
  unfold makeDay dayFromYear
  omega

/-- The overdue test in a host whose zone offset is the constant `tz`: a task that
is not completed and has a date-only due date is marked exactly when the day
number of the due date, moved by the whole days of the offset (`tz / msPerDay` is
`-1` for every zone less than a day behind UTC), is before the local day number of
the clock. -/
theorem isOverdue_constant_zone (env : Env) (tz : Int) (task : Task) (y : Int) (m d : Nat)
    (hz : ∀ t b, env.localTZA t b = tz)
    (hnow : -8640000000000000 + 2 * msPerDay ≤ env.now ∧
      env.now ≤ 8640000000000000 - 2 * msPerDay)
    (hc : task.completed = false)
    (hp : parseDateOnly task.dueDate.data = some (y, m, d)) :
    isOverdue env task =
      decide (makeDay y m d + tz / msPerDay < (env.now + tz) / msPerDay) := by
  obtain ⟨hy0, hy1, _, hm, _, hd, hne⟩ := parseDateOnly_bounds _ y m d hp
  obtain ⟨hD0, hD1⟩ := makeDay_bounds y m d hy0 hy1 hm ((hd.trans (daysInMonth_le y m)))
  have hdue : task.dueDate ≠ "" := by
    intro h
    rw [h] at hne
    exact hne rfl
  have hclip : ∀ t : Int, -8640000000000000 ≤ t → t ≤ 8640000000000000 →
      timeClip t = some t := by
    intro t h1 h2
    unfold timeClip
    rw [if_pos (by omega)]
  unfold msPerDay at hnow
  have hdate : dateFromString env task.dueDate = some (makeDay y m d * 86400000) := by
    simp only [dateFromString, hp, msPerDay]
    exact hclip _ (by omega) (by omega)
  have hdueMid : setHoursZero env (some (makeDay y m d * 86400000)) =
      some ((makeDay y m d + tz / 86400000) * 86400000 - tz) := by
    simp only [setHoursZero, Option.bind, hz, msPerDay]
    have : (makeDay y m d * 86400000 + tz) / 86400000 = makeDay y m d + tz / 86400000 := by
      omega
    rw [this]
    exact hclip _ (by omega) (by omega)
  have htoday : setHoursZero env (some env.now) =
      some ((env.now + tz) / 86400000 * 86400000 - tz) := by
    simp only [setHoursZero, Option.bind, hz, msPerDay]
    exact hclip _ (by omega) (by omega)
  unfold isOverdue
  simp only [hdue, hc, ne_eq, not_false_eq_true, decide_True, Bool.not_false, Bool.and_self,
    if_true, hdate, hdueMid, htoday, numLt, msPerDay]
  congr 1
  apply propext
  constructor <;> intro h <;> omega

/-- In a zone at or ahead of UTC the overdue test compares calendar days: the task
is marked exactly when its due day is before the local day of the clock. -/
theorem isOverdue_zone_ahead_of_utc (env : Env) (tz : Int) (task : Task) (y : Int)
    (m d : Nat) (hz : ∀ t b, env.localTZA t b = tz) (htz : 0 ≤ tz ∧ tz < msPerDay)
    (hnow : -8640000000000000 + 2 * msPerDay ≤ env.now ∧
      env.now ≤ 8640000000000000 - 2 * msPerDay)
    (hc : task.completed = false)
    (hp : parseDateOnly task.dueDate.data = some (y, m, d)) :
    isOverdue env task = decide (makeDay y m d < (env.now + tz) / msPerDay) := by
  rw [isOverdue_constant_zone env tz task y m d hz hnow hc hp]
  have : tz / msPerDay = 0 := by
    unfold msPerDay at *
    omega
  rw [this, Int.add_zero]

/-- In a zone behind UTC the overdue test is a day early: the task is marked as
soon as its due day is the local day of the clock. -/
theorem isOverdue_zone_behind_utc (env : Env) (tz : Int) (task : Task) (y : Int)
    (m d : Nat) (hz : ∀ t b, env.localTZA t b = tz) (htz : -msPerDay < tz ∧ tz < 0)
    (hnow : -8640000000000000 + 2 * msPerDay ≤ env.now ∧
      env.now ≤ 8640000000000000 - 2 * msPerDay)
    (hc : task.completed = false)
    (hp : parseDateOnly task.dueDate.data = some (y, m, d)) :
    isOverdue env task = decide (makeDay y m d ≤ (env.now + tz) / msPerDay) := by
  rw [isOverdue_constant_zone env tz task y m d hz hnow hc hp]
  have : tz / msPerDay = -1 := by
    unfold msPerDay at *
    omega
  rw [this]
  congr 1
  apply propext
  constructor <;> intro h <;> omega

/-- C8, evaluated where it fails: in a zone five hours behind UTC, at 07:00 local
time on 25 December 2024, `renderTasks` marks a task that is due on that same day
and not completed as overdue. The due date is read as midnight UTC, which is
19:00 of 24 December in local time, so its local midnight is a day early. -/
theorem renderTasks_marks_task_due_today_overdue :
    parseDateOnly dueChristmas.dueDate.data = some (2024, 12, 25) ∧
      (exampleEnv.now + exampleEnv.localTZA exampleEnv.now true) / msPerDay =
        makeDay 2024 12 25 ∧
      setHoursZero exampleEnv (dateFromString exampleEnv dueChristmas.dueDate) =
        some ((makeDay 2024 12 25 - 1) * msPerDay + 18000000) ∧
      isOverdue exampleEnv dueChristmas = true ∧
      (renderTasks exampleEnv { tasks := [dueChristmas] }).listContainer =
        ListView.items [{ dataId := 1735000000003, checked := false, overdue := true,
                          text := "Wrap gifts", priority := "high",
                          dueDate := "2024-12-25" }] := by
  decide

/-! ## Loading -/

/-- C10: serializing any task collection with `saveData` and loading the stored
string with `loadData` on a fresh page gives back the same collection, element by
element (same length, order and field values), the empty collection included; the
same holds from any state holding that stored string, and for the string that
`renderTasks` stores after every mutation. -/
theorem saveData_loadData_roundtrip (env : Env) (s : AppState) :
    (loadData env (initialState (saveData s).storage)).tasks? = some s.tasks ∧
      (∀ s0 : AppState,
        loadData env { s0 with storage := (saveData s).storage } =
          .done (renderTasks env
            { s0 with storage := (saveData s).storage, tasks := s.tasks })) ∧
      (loadData env (initialState (renderTasks env s).storage)).tasks? = some s.tasks ∧
      JSON.parse (JSON.stringify s.tasks) = .ok (Json.arr (s.tasks.map taskJson)) ∧
      asTasks (s.tasks.map taskJson) = some s.tasks := by
  refine ⟨?_, ?_, ?_, jsonParse_jsonStringify _, asTasks_map_taskJson _⟩
  · rw [loadData_of_saved env (initialState (saveData s).storage) s.tasks rfl]
    rfl
  · intro s0
    exact loadData_of_saved env { s0 with storage := (saveData s).storage } s.tasks rfl
  · rw [loadData_of_saved env (initialState (renderTasks env s).storage) s.tasks rfl]
    rfl

/-- C9, as stated, fails: with the stored text `{`, which is not JSON,
`JSON.parse` throws a `SyntaxError` that leaves `loadData`; with the stored text
`{}`, which is JSON but not an array, `renderTasks` throws a `TypeError`. -/
theorem loadData_malformed_throws :
    (loadData exampleEnv (initialState (some "\x7b"))).error? = some JsError.syntaxError ∧
      (loadData exampleEnv (initialState (some "\x7b"))).tasks? = none ∧
      (loadData exampleEnv (initialState (some "\x7b\x7d"))).error? = some JsError.typeError := by
  decide

/-- C9, amended: when the storage key is absent or holds the empty string,
`loadData` returns and the collection after the load is empty; when the key holds
a text that `JSON.parse` rejects, a `SyntaxError` leaves `loadData`, and when it
holds JSON that is not an array, a `TypeError` does. -/
theorem loadData_absent_or_malformed (env : Env) (stored : Option String) :
    ((stored = none ∨ stored = some "") →
        loadData env (initialState stored) = .done (renderTasks env (initialState stored)) ∧
        (loadData env (initialState stored)).tasks? = some [] ∧
        (loadData env (initialState stored)).error? = none) ∧
      (∀ text : String, stored = some text → text ≠ "" →
        JSON.parse text = .error .syntaxError →
        loadData env (initialState stored) = .threw .syntaxError) ∧
      (∀ (text : String) (v : Json), stored = some text → text ≠ "" →
        JSON.parse text = .ok v → (∀ elems, v ≠ Json.arr elems) →
        loadData env (initialState stored) = .threw .typeError) := by
  refine ⟨?_, ?_, ?_⟩
  · intro h
    have hd : loadData env (initialState stored) =
        .done (renderTasks env (initialState stored)) := by
      rcases h with h | h <;> subst h <;> rfl
    rw [hd]
    exact ⟨rfl, rfl, rfl⟩
  · intro text hs hne hp
    subst hs
    simp [loadData, initialState, hne, hp]
  · intro text v hs hne hp hv
    subst hs
    cases v with
    | arr elems => exact absurd rfl (hv elems)
    | _ => simp [loadData, initialState, hne, hp]

/-- Instance of C9 as amended: a fresh page without a stored entry. -/
theorem loadData_absent_or_malformed_witness :
    (loadData exampleEnv (initialState none)).tasks? = some [] ∧
      (loadData exampleEnv (initialState none)).error? = none :=
  ((loadData_absent_or_malformed exampleEnv none).1 (Or.inl rfl)).2

end TodoList
